import Mathlib

/-!
# webpa-common: zookeeper environment builder and WRP codec pools

A shallow embedding of `service/zk/environment.go` and of the codec pools exercised by
`wrp/pool_test.go`, followed by theorems about them.

Conventions of the embedding

* Go's multiple return values `(v, err)` are pairs whose second component is an
  `Option Error` (`none` is Go's `nil` error).
* The zookeeper client library is an external collaborator.  Its behaviour is a parameter
  (`Gokitzk`) that may depend on the whole history of calls made so far, and every call the
  builder makes is appended to `World.calls`.
* Log output is appended to `World.logged`.
-/

/-! ## Part 1: definitions -/

namespace zk

/-- A Go `error` value, identified by its message. -/
abbrev Error := String

/-- A go-kit logger: the key/value context bound to it. -/
structure Logger where
  context : List (String × String)
deriving DecidableEq, Repr

/-- The go-kit call `log.With(l, k, v)`: the same logger with one more key/value pair. -/
def Logger.With (l : Logger) (k v : String) : Logger :=
  ⟨l.context ++ [(k, v)]⟩

/-- The logger `logging.DefaultLogger()` substituted for a nil logger. -/
def DefaultLogger : Logger := ⟨[("logger", "default")]⟩

/-- The go-kit constant `level.Key()`. -/
def levelKey : String := "level"

/-- The go-kit constant `level.WarnValue()`. -/
def levelWarnValue : String := "warn"

/-- The constant `logging.MessageKey()`. -/
def MessageKey : String := "msg"

/-- One `Log` call: the logger it was made on and its key/value arguments. -/
structure LogEntry where
  logger : Logger
  keyvals : List String
deriving DecidableEq, Repr

/-- Registration describes one local endpoint to advertise. -/
structure Registration where
  Name : String
  Path : String
  Address : String
  Port : Nat
  Scheme : String
deriving DecidableEq, Repr

/-- Modelled from the spec: the accessor `Registration.scheme()` is not part of the
sources; a registration is "scheme, address, port, logical service name, registration
path", read as configured. -/
def Registration.scheme (r : Registration) : String := r.Scheme

/-- Modelled from the spec: the accessor `Registration.address()`, the configured address. -/
def Registration.address (r : Registration) : String := r.Address

/-- Modelled from the spec: the accessor `Registration.port()`, the configured port. -/
def Registration.port (r : Registration) : Nat := r.Port

/-- Modelled from the spec: the accessor `Registration.name()`, the configured service name. -/
def Registration.name (r : Registration) : String := r.Name

/-- Modelled from the spec: the accessor `Registration.path()`, the configured path. -/
def Registration.path (r : Registration) : String := r.Path

/-- Options is the configuration aggregate read once at environment construction.
Durations are nanosecond counts. -/
structure Options where
  Servers : List String
  ConnectTimeout : Int
  SessionTimeout : Int
  Registrations : List Registration
  Watches : List String
deriving DecidableEq, Repr

/-- Modelled from the spec: the accessor `Options.servers()` is not part of the sources;
the client is opened "using the configured server list". -/
def Options.servers (zo : Options) : List String := zo.Servers

/-- Modelled from the spec: the accessor `Options.connectTimeout()`, the configured
connect timeout. -/
def Options.connectTimeout (zo : Options) : Int := zo.ConnectTimeout

/-- Modelled from the spec: the accessor `Options.sessionTimeout()`, the configured
session timeout. -/
def Options.sessionTimeout (zo : Options) : Int := zo.SessionTimeout

/-- Modelled from the spec: the accessor `Options.registrations()`, "the configured
registrations in order". -/
def Options.registrations (zo : Options) : List Registration := zo.Registrations

/-- Modelled from the spec: the accessor `Options.watches()`, "the configured watch paths
in order". -/
def Options.watches (zo : Options) : List String := zo.Watches

/-- The go-kit service record `gokitzk.Service`. -/
structure Service where
  Path : String
  Name : String
  Data : List UInt8
deriving DecidableEq, Repr

/-- Modelled from the spec: `service.FormatInstance` is not part of the sources; the
endpoint identity is formatted as `scheme://address:port`. -/
def FormatInstance (scheme address : String) (port : Nat) : String :=
  scheme ++ "://" ++ address ++ ":" ++ toString port

/-- The Go conversion `[]byte(s)`: the UTF-8 bytes of the string. -/
def bytesOf (s : String) : List UInt8 := s.toUTF8.data.toList

/-- Source: `newService`. -/
def newService (r : Registration) : String × Service :=
  let url := FormatInstance r.scheme r.address r.port
  (url, ⟨r.path, r.name, bytesOf url⟩)

/-- A connected go-kit zookeeper client, identified by a handle. -/
structure Client where
  id : Nat
deriving DecidableEq, Repr

/-- The go-kit client options `gokitzk.ConnectTimeout(d)` and `gokitzk.SessionTimeout(d)`. -/
inductive ClientOption where
  | ConnectTimeout (d : Int)
  | SessionTimeout (d : Int)
deriving DecidableEq, Repr

/-- The calls made into the zookeeper client library. -/
inductive Call where
  | clientFactory (servers : List String) (l : Logger) (opts : List ClientOption)
  | NewInstancer (c : Client) (path : String) (l : Logger)
  | NewRegistrar (c : Client) (s : Service) (l : Logger)
  | Stop (c : Client)
deriving DecidableEq, Repr

/-- The observable state threaded through the builder: every library call made so far
and every log line written so far, oldest first. -/
structure World where
  calls : List Call
  logged : List LogEntry
deriving DecidableEq, Repr

/-- Record one library call. -/
def World.call (w : World) (c : Call) : World := ⟨w.calls ++ [c], w.logged⟩

/-- Record one `Log` call. -/
def World.log (w : World) (l : Logger) (keyvals : List String) : World :=
  ⟨w.calls, w.logged ++ [⟨l, keyvals⟩]⟩

/-- The behaviour of the external zookeeper library.  `clientFactory` is the package-level
factory variable (by default `gokitzk.NewClient`), `NewInstancer` is `gokitzk.NewInstancer`;
the first argument of each is the history of calls made before this one, and the handle a
successful `NewInstancer` yields is a number. -/
structure Gokitzk where
  clientFactory : List Call → List String → Logger → List ClientOption → Except Error Client
  NewInstancer : List Call → Client → String → Logger → Except Error Nat

/-- An `sd.Instancer`: a zookeeper instancer, possibly wrapped with metadata by
`service.NewContextualInstancer`. -/
inductive Instancer where
  | zk (handle : Nat)
  | contextual (next : Instancer) (metadata : List (String × String))
deriving DecidableEq, Repr

/-- Modelled from the spec: `service.Instancers` is not part of the sources; the instancer
set is "a mapping from watch-path (string key, unique) to an active event-stream handle".
The entries are kept in insertion order. -/
structure Instancers where
  entries : List (String × Instancer)
deriving DecidableEq, Repr

/-- The nil `service.Instancers`, the zero value of the named result of `newInstancers`. -/
def Instancers.empty : Instancers := ⟨[]⟩

/-- The keys of the instancer set, in insertion order. -/
def Instancers.keys (i : Instancers) : List String := i.entries.map Prod.fst

/-- Modelled from the spec: `Instancers.Has`, whether the path is "already present in the
set". -/
def Instancers.Has (i : Instancers) (key : String) : Bool := decide (key ∈ i.keys)

/-- Modelled from the spec: `Instancers.Set`, which "inserts it keyed by path"; a key that
is already present keeps its place and takes the new value, so that no two entries share a
key. -/
def Instancers.Set (i : Instancers) (key : String) (v : Instancer) : Instancers :=
  if i.Has key then
    ⟨i.entries.map (fun kv => if kv.1 = key then (key, v) else kv)⟩
  else
    ⟨i.entries ++ [(key, v)]⟩

/-- The number of entries of the instancer set. -/
def Instancers.Len (i : Instancers) : Nat := i.entries.length

/-- A go-kit zookeeper registrar, as built by `gokitzk.NewRegistrar(c, s, logger)`. -/
structure Registrar where
  client : Client
  service : Service
  logger : Logger
deriving DecidableEq, Repr

/-- Modelled from the spec: `service.Registrars` is not part of the sources; the registrar
set is "an ordered collection of active registrar handles". -/
structure Registrars where
  items : List Registrar
deriving DecidableEq, Repr

/-- The nil `service.Registrars`, the zero value of the named result of `newRegistrars`. -/
def Registrars.empty : Registrars := ⟨[]⟩

/-- Modelled from the spec: `Registrars.Add`, which "appends" the registrar. -/
def Registrars.Add (r : Registrars) (x : Registrar) : Registrars := ⟨r.items ++ [x]⟩

/-- Source: `newClient`. -/
def newClient (lib : Gokitzk) (l : Logger) (zo : Options) (w : World) :
    Except Error Client × World :=
  let opts := [ClientOption.ConnectTimeout zo.connectTimeout,
    ClientOption.SessionTimeout zo.sessionTimeout]
  (lib.clientFactory w.calls zo.servers l opts, w.call (Call.clientFactory zo.servers l opts))

/-- Source: `newInstancer`. -/
def newInstancer (lib : Gokitzk) (l : Logger) (c : Client) (path : String) (w : World) :
    Except Error Instancer × World :=
  match lib.NewInstancer w.calls c path l with
  | Except.ok h =>
    (Except.ok (Instancer.contextual (Instancer.zk h) [("path", path)]),
      w.call (Call.NewInstancer c path l))
  | Except.error err => (Except.error err, w.call (Call.NewInstancer c path l))

/-- The loop of `newInstancers` over the remaining watch paths, from the instancer set
built so far. -/
def newInstancersLoop (lib : Gokitzk) (l : Logger) (c : Client) :
    List String → Instancers → World → (Instancers × Option Error) × World
  | [], i, w => ((i, none), w)
  | path :: rest, i, w =>
    if i.Has path then
      newInstancersLoop lib l c rest i
        (w.log l [levelKey, levelWarnValue, MessageKey, "skipping duplicate watch", "path", path])
    else
      match newInstancer lib l c path w with
      | (Except.error err, w1) => ((i, some err), w1)
      | (Except.ok instancer, w1) => newInstancersLoop lib l c rest (i.Set path instancer) w1

/-- Source: `newInstancers`.  On failure the set built so far is returned next to the
error, as the Go named results are. -/
def newInstancers (lib : Gokitzk) (l : Logger) (c : Client) (zo : Options) (w : World) :
    (Instancers × Option Error) × World :=
  newInstancersLoop lib l c zo.watches Instancers.empty w

/-- Go's `dedupe[endpoint]` on a `map[string]bool` whose stored values are all `true`:
the map is the list of its keys. -/
def dedupeGet (dedupe : List String) (endpoint : String) : Bool := decide (endpoint ∈ dedupe)

/-- Go's `dedupe[endpoint] = true`. -/
def dedupeSet (dedupe : List String) (endpoint : String) : List String :=
  if endpoint ∈ dedupe then dedupe else dedupe ++ [endpoint]

/-- The loop of `newRegistrars` over the remaining registrations. -/
def newRegistrarsLoop (base : Logger) (c : Client) :
    List Registration → List String → Registrars → World → Registrars × World
  | [], _, r, w => (r, w)
  | registration :: rest, dedupe, r, w =>
    let es := newService registration
    if dedupeGet dedupe es.1 then
      newRegistrarsLoop base c rest dedupe r
        (w.log base [levelKey, levelWarnValue, MessageKey, "skipping duplicate registration",
          "endpoint", es.1])
    else
      newRegistrarsLoop base c rest (dedupeSet dedupe es.1)
        (r.Add ⟨c, es.2, base.With "endpoint" es.1⟩)
        (w.call (Call.NewRegistrar c es.2 (base.With "endpoint" es.1)))

/-- Source: `newRegistrars`. -/
def newRegistrars (base : Logger) (c : Client) (zo : Options) (w : World) :
    Registrars × World :=
  newRegistrarsLoop base c zo.registrations [] Registrars.empty w

/-- The elements of a list whose key has not occurred earlier in the list, in order: every
later element with an already-seen key is deleted. -/
def keepFirstBy {α κ : Type} [DecidableEq κ] (key : α → κ) : List α → List α
  | [] => []
  | x :: xs => x :: (keepFirstBy key xs).filter (fun y => decide (key y ≠ key x))

/-- The distinct watch paths of a list, each at its first occurrence. -/
def distinctPaths (paths : List String) : List String := keepFirstBy id paths

/-- The endpoint identity of a registration: the first component of `newService`. -/
def endpointOf (r : Registration) : String := (newService r).1

/-- The registrar `newRegistrars` builds for a registration. -/
def registrarFor (base : Logger) (c : Client) (r : Registration) : Registrar :=
  ⟨c, (newService r).2, base.With "endpoint" (newService r).1⟩

/-- The endpoint a registrar is labelled with: the value bound last to its logger, which
for a registrar built by `newRegistrars` is the `"endpoint"` value of `log.With`. -/
def Registrar.endpoint (r : Registrar) : Option String :=
  r.logger.context.getLast?.map Prod.snd

/-- A close hook: a Go `func() error`, run against the world. -/
abbrev Closer := World → Option Error × World

/-- The `service.Option` values: the three the builder appends, and any other option a
caller passes, identified by name. -/
inductive ServiceOption where
  | WithRegistrar (r : Registrars)
  | WithInstancers (i : Instancers)
  | WithCloser (f : Closer)
  | other (name : String)

/-- Modelled from the spec: `service.Environment` is not part of the sources; it "exposes
the aggregated instancer set (keyed by path), the aggregated registrar set (ordered), and a
single close operation". -/
structure Environment where
  registrars : Registrars
  instancers : Instancers
  closer : Closer
  others : List String

/-- Apply one `service.Option` to the environment under construction. -/
def ServiceOption.apply : ServiceOption → Environment → Environment
  | ServiceOption.WithRegistrar r, e => ⟨r, e.instancers, e.closer, e.others⟩
  | ServiceOption.WithInstancers i, e => ⟨e.registrars, i, e.closer, e.others⟩
  | ServiceOption.WithCloser f, e => ⟨e.registrars, e.instancers, f, e.others⟩
  | ServiceOption.other n, e => ⟨e.registrars, e.instancers, e.closer, e.others ++ [n]⟩

/-- Modelled from the spec: `service.NewEnvironment` is not part of the sources; the
options are applied in order to an environment with no registrars, no instancers and a
close hook that does nothing. -/
def serviceNewEnvironment (eo : List ServiceOption) : Environment :=
  eo.foldl (fun e o => o.apply e) ⟨Registrars.empty, Instancers.empty, fun w => (none, w), []⟩

/-- The close hook the builder installs: `func() error { c.Stop(); return nil }`. -/
def stopCloser (c : Client) : Closer := fun w => (none, w.call (Call.Stop c))

/-- Source: `NewEnvironment`.  A nil logger is `none`; a nil environment is `none`. -/
def NewEnvironment (lib : Gokitzk) (l : Option Logger) (zo : Options)
    (eo : List ServiceOption) (w : World) : (Option Environment × Option Error) × World :=
  let l := match l with
    | none => DefaultLogger
    | some l => l
  if zo.Watches.length == 0 && zo.Registrations.length == 0 then
    ((none, none), w)
  else
    match newClient lib l zo w with
    | (Except.error err, w1) => ((none, some err), w1)
    | (Except.ok c, w1) =>
      match newInstancers lib l c zo w1 with
      | ((_, some err), w2) => ((none, some err), w2.call (Call.Stop c))
      | ((i, none), w2) =>
        let rw := newRegistrars l c zo w2
        ((some (serviceNewEnvironment (eo ++ [ServiceOption.WithRegistrar rw.1,
          ServiceOption.WithInstancers i, ServiceOption.WithCloser (stopCloser c)])), none), rw.2)

/-- The logger the builder works with: the default logger when none is given. -/
def loggerOf (l : Option Logger) : Logger := l.getD DefaultLogger

/-- The library call `newClient` makes. -/
def connectCall (l : Logger) (zo : Options) : Call :=
  Call.clientFactory zo.servers l
    [ClientOption.ConnectTimeout zo.connectTimeout, ClientOption.SessionTimeout zo.sessionTimeout]

/-- The world before anything has happened. -/
def emptyWorld : World := ⟨[], []⟩

/-- A library in which every call succeeds; the client has handle 1 and an instancer's
handle is the number of calls made before its creation. -/
def exampleLib : Gokitzk :=
  ⟨fun _ _ _ _ => Except.ok ⟨1⟩, fun h _ _ _ => Except.ok h.length⟩

/-- A library whose client factory fails. -/
def refusingLib : Gokitzk :=
  ⟨fun _ _ _ _ => Except.error "connection refused", fun h _ _ _ => Except.ok h.length⟩

/-- A library in which the watch on `/svc/b` cannot be created. -/
def brokenWatchLib : Gokitzk :=
  ⟨fun _ _ _ _ => Except.ok ⟨1⟩,
    fun h _ path _ => if path = "/svc/b" then Except.error "no node" else Except.ok h.length⟩

/-- An example configuration: a repeated watch path and two registrations of one
endpoint. -/
def exampleOptions : Options :=
  ⟨["s1"], 5, 10,
    [⟨"api", "/reg/api", "10.0.0.1", 8080, "http"⟩,
      ⟨"admin", "/reg/admin", "10.0.0.1", 8080, "http"⟩],
    ["/svc/a", "/svc/a", "/svc/b"]⟩

/-- A configuration with nothing to watch and nothing to register. -/
def idleOptions : Options := ⟨["s1"], 5, 10, [], []⟩

/-- The library call `newInstancer` makes for a path. -/
def instancerCall (l : Logger) (c : Client) (path : String) : Call :=
  Call.NewInstancer c path l

/-- The library call `newRegistrars` makes for a registration. -/
def registrarCall (base : Logger) (c : Client) (r : Registration) : Call :=
  Call.NewRegistrar c (newService r).2 (base.With "endpoint" (newService r).1)

/-- Reference algorithm for the instancer set, following the spec's words for a list
without repetition: create an event stream for each path in order, stop at the first
creation that fails.  It yields the entries created, the error, and the call history. -/
def createInOrder (lib : Gokitzk) (l : Logger) (c : Client) :
    List String → List Call → (List (String × Instancer) × Option Error) × List Call
  | [], h => (([], none), h)
  | p :: ps, h =>
    match lib.NewInstancer h c p l with
    | Except.error e => (([], some e), h ++ [Call.NewInstancer c p l])
    | Except.ok n =>
      (((p, Instancer.contextual (Instancer.zk n) [("path", p)])
          :: (createInOrder lib l c ps (h ++ [Call.NewInstancer c p l])).1.1,
        (createInOrder lib l c ps (h ++ [Call.NewInstancer c p l])).1.2),
        (createInOrder lib l c ps (h ++ [Call.NewInstancer c p l])).2)

/-- The Options obtained by deleting every later duplicate watch path and every later
registration with an already-seen endpoint identity. -/
def dedupOptions (zo : Options) : Options :=
  ⟨zo.Servers, zo.ConnectTimeout, zo.SessionTimeout,
    keepFirstBy endpointOf zo.Registrations, distinctPaths zo.Watches⟩

/-- A configuration with one registration and no watch. -/
def registerOnlyOptions : Options :=
  ⟨["s1"], 5, 10, [⟨"api", "/reg/api", "10.0.0.1", 8080, "http"⟩], []⟩

/-- The registration `api` of the endpoint `http://10.0.0.1:8080`. -/
def apiRegistration : Registration := ⟨"api", "/reg/api", "10.0.0.1", 8080, "http"⟩

/-- The registration `admin` of the same endpoint, under another path and name. -/
def adminRegistration : Registration := ⟨"admin", "/reg/admin", "10.0.0.1", 8080, "http"⟩

/-- A configuration in which `api` is registered, then `admin`, then `api` again. -/
def shadowedOptions : Options :=
  ⟨["s1"], 5, 10, [apiRegistration, adminRegistration, apiRegistration], []⟩

end zk

namespace wrp

/-- A Go `error` value, identified by its message. -/
abbrev Error := String

/-- The two recognised wire formats. -/
inductive Format where
  | Msgpack
  | JSON
deriving DecidableEq, Repr

/-- The fields of a WRP `Message` that the pool tests populate. -/
structure Message where
  Destination : String
  Source : String
  Payload : List UInt8
deriving DecidableEq, Repr

/-- The wire codecs are external collaborators: `encode` yields the bytes written to the
sink together with the encode error, `decode` yields the target message after the call
together with the decode error. -/
structure Codec where
  encode : Format → Message → List UInt8 × Option Error
  decode : Format → Message → List UInt8 → Message × Option Error

/-- An encoder instance: its allocation number, and the format and buffer-size hint it is
bound to. -/
structure Encoder where
  id : Nat
  format : Format
  bufferSize : Nat
deriving DecidableEq, Repr

/-- A decoder instance: its allocation number and the format it is bound to. -/
structure Decoder where
  id : Nat
  format : Format
deriving DecidableEq, Repr

/-- Modelled from the spec: `EncoderPool` (pool.go) is not part of the sources, only its
test is.  The pool is "a bounded, format-specific cache of reusable encoder objects plus a
buffer-size hint used when constructing fresh instances": a target capacity, the backing
store of idle instances (oldest first), the format, the hint, and the number of instances
constructed so far, which numbers the next fresh instance. -/
structure EncoderPool where
  capacity : Nat
  pool : List Encoder
  format : Format
  initialBufferSize : Nat
  allocated : Nat
deriving DecidableEq, Repr

/-- Modelled from the spec: the `factory` of an encoder pool, which constructs "a fresh
instance bound to format and initialBufferSizeHint". -/
def EncoderPool.factory (ep : EncoderPool) : Encoder × EncoderPool :=
  (⟨ep.allocated, ep.format, ep.initialBufferSize⟩,
    ⟨ep.capacity, ep.pool, ep.format, ep.initialBufferSize, ep.allocated + 1⟩)

/-- Modelled from the spec: `EncoderPool.Get` (acquire): "if the backing store has an idle
instance, remove and return it; otherwise construct a fresh instance". -/
def EncoderPool.Get (ep : EncoderPool) : Encoder × EncoderPool :=
  match ep.pool with
  | e :: rest => (e, ⟨ep.capacity, rest, ep.format, ep.initialBufferSize, ep.allocated⟩)
  | [] => ep.factory

/-- Modelled from the spec: `EncoderPool.Put` (release): "if the backing store currently
holds fewer than capacity instances, insert the handle for reuse; otherwise discard it
silently". -/
def EncoderPool.Put (ep : EncoderPool) (e : Encoder) : EncoderPool :=
  if ep.pool.length < ep.capacity then
    ⟨ep.capacity, ep.pool ++ [e], ep.format, ep.initialBufferSize, ep.allocated⟩
  else
    ep

/-- Put `n` freshly constructed instances into the pool. -/
def EncoderPool.fill : Nat → EncoderPool → EncoderPool
  | 0, ep => ep
  | n + 1, ep => EncoderPool.fill n (ep.factory.2.Put ep.factory.1)

/-- Modelled from the spec: `NewEncoderPool` (pool.go) is not part of the sources.
"Construction: newPool(capacity, initialBufferSizeHint, format)"; a capacity of 0 is
legal.  The spec leaves the initial contents open; the repository's test observes a full
pool after construction, so the backing store is filled to capacity. -/
def NewEncoderPool (poolSize initialBufferSize : Nat) (f : Format) : EncoderPool :=
  EncoderPool.fill poolSize ⟨poolSize, [], f, initialBufferSize, 0⟩

/-- Modelled from the spec: `EncoderPool.Encode` "acquires a handle, encodes the message
into the provided output sink using the bound format, releases the handle (whether encode
succeeded or failed), returns the encode error if any".  The sink is the bytes written to
it so far. -/
def EncoderPool.Encode (codec : Codec) (ep : EncoderPool) (dst : List UInt8) (m : Message) :
    (Option Error × List UInt8) × EncoderPool :=
  let g := ep.Get
  let r := codec.encode g.1.format m
  ((r.2, dst ++ r.1), g.2.Put g.1)

/-- Modelled from the spec: `EncoderPool.EncodeBytes`, the "same contract, with an owned
in-memory output buffer returned instead of writing to a caller-supplied sink". -/
def EncoderPool.EncodeBytes (codec : Codec) (ep : EncoderPool) (m : Message) :
    (List UInt8 × Option Error) × EncoderPool :=
  let g := ep.Get
  let r := codec.encode g.1.format m
  ((r.1, r.2), g.2.Put g.1)

/-- Modelled from the spec: `DecoderPool` (pool.go) is not part of the sources, only its
test is; the decoder pool mirrors the encoder pool. -/
structure DecoderPool where
  capacity : Nat
  pool : List Decoder
  format : Format
  allocated : Nat
deriving DecidableEq, Repr

/-- Modelled from the spec: the `factory` of a decoder pool, which constructs a fresh
instance bound to the pool's format. -/
def DecoderPool.factory (dp : DecoderPool) : Decoder × DecoderPool :=
  (⟨dp.allocated, dp.format⟩, ⟨dp.capacity, dp.pool, dp.format, dp.allocated + 1⟩)

/-- Modelled from the spec: `DecoderPool.Get` (acquire), as for the encoder pool. -/
def DecoderPool.Get (dp : DecoderPool) : Decoder × DecoderPool :=
  match dp.pool with
  | d :: rest => (d, ⟨dp.capacity, rest, dp.format, dp.allocated⟩)
  | [] => dp.factory

/-- Modelled from the spec: `DecoderPool.Put` (release), as for the encoder pool. -/
def DecoderPool.Put (dp : DecoderPool) (d : Decoder) : DecoderPool :=
  if dp.pool.length < dp.capacity then
    ⟨dp.capacity, dp.pool ++ [d], dp.format, dp.allocated⟩
  else
    dp

/-- Put `n` freshly constructed instances into the pool. -/
def DecoderPool.fill : Nat → DecoderPool → DecoderPool
  | 0, dp => dp
  | n + 1, dp => DecoderPool.fill n (dp.factory.2.Put dp.factory.1)

/-- Modelled from the spec: `NewDecoderPool` (pool.go) is not part of the sources; it is
called by the test with a pool size and a format, and mirrors `NewEncoderPool`. -/
def NewDecoderPool (poolSize : Nat) (f : Format) : DecoderPool :=
  DecoderPool.fill poolSize ⟨poolSize, [], f, 0⟩

/-- Modelled from the spec: `DecoderPool.Decode`: "acquire, decode into or produce a fresh
Message, release regardless of outcome, propagate decode error".  The reader is the bytes
it yields. -/
def DecoderPool.Decode (codec : Codec) (dp : DecoderPool) (target : Message)
    (source : List UInt8) : (Message × Option Error) × DecoderPool :=
  let g := dp.Get
  (codec.decode g.1.format target source, g.2.Put g.1)

/-- Modelled from the spec: `DecoderPool.DecodeBytes`, `Decode` from a byte slice. -/
def DecoderPool.DecodeBytes (codec : Codec) (dp : DecoderPool) (target : Message)
    (source : List UInt8) : (Message × Option Error) × DecoderPool :=
  let g := dp.Get
  (codec.decode g.1.format target source, g.2.Put g.1)

/-- The zero `Message` that `new(Message)` allocates. -/
def Message.zero : Message := ⟨"", "", []⟩

/-- Modelled from the spec: `DecoderPool.DecodeMessage`, which decodes into a fresh
`Message` and returns it with the decode error. -/
def DecoderPool.DecodeMessage (codec : Codec) (dp : DecoderPool) (source : List UInt8) :
    (Message × Option Error) × DecoderPool :=
  dp.Decode codec Message.zero source

/-- Modelled from the spec: `DecoderPool.DecodeMessageBytes`, `DecodeMessage` from a byte
slice. -/
def DecoderPool.DecodeMessageBytes (codec : Codec) (dp : DecoderPool) (source : List UInt8) :
    (Message × Option Error) × DecoderPool :=
  dp.DecodeBytes codec Message.zero source

/-- The operations a caller can apply to an encoder pool. -/
inductive EncoderOp where
  | Get
  | Put (e : Encoder)
  | Encode (dst : List UInt8) (m : Message)
  | EncodeBytes (m : Message)

/-- The pool after one operation. -/
def EncoderPool.step (codec : Codec) (ep : EncoderPool) : EncoderOp → EncoderPool
  | EncoderOp.Get => ep.Get.2
  | EncoderOp.Put e => ep.Put e
  | EncoderOp.Encode dst m => (ep.Encode codec dst m).2
  | EncoderOp.EncodeBytes m => (ep.EncodeBytes codec m).2

/-- The pool after a finite sequence of operations. -/
def EncoderPool.run (codec : Codec) (ep : EncoderPool) (ops : List EncoderOp) : EncoderPool :=
  ops.foldl (EncoderPool.step codec) ep

/-- The operations a caller can apply to a decoder pool. -/
inductive DecoderOp where
  | Get
  | Put (d : Decoder)
  | Decode (target : Message) (source : List UInt8)
  | DecodeBytes (target : Message) (source : List UInt8)
  | DecodeMessage (source : List UInt8)
  | DecodeMessageBytes (source : List UInt8)

/-- The pool after one operation. -/
def DecoderPool.step (codec : Codec) (dp : DecoderPool) : DecoderOp → DecoderPool
  | DecoderOp.Get => dp.Get.2
  | DecoderOp.Put d => dp.Put d
  | DecoderOp.Decode t s => (dp.Decode codec t s).2
  | DecoderOp.DecodeBytes t s => (dp.DecodeBytes codec t s).2
  | DecoderOp.DecodeMessage s => (dp.DecodeMessage codec s).2
  | DecoderOp.DecodeMessageBytes s => (dp.DecodeMessageBytes codec s).2

/-- The pool after a finite sequence of operations. -/
def DecoderPool.run (codec : Codec) (dp : DecoderPool) (ops : List DecoderOp) : DecoderPool :=
  ops.foldl (DecoderPool.step codec) dp

/-- The message of `testEncoderPool`. -/
def testMessage : Message :=
  ⟨"foobar.com/test", "mac:11112222333", "testEncoderPool".toUTF8.data.toList⟩

/-- A toy codec that always succeeds: the encoding is the payload, and decoding stores the
input as the payload. -/
def exampleCodec : Codec :=
  ⟨fun _ m => (m.Payload, none), fun _ t s => (⟨t.Destination, t.Source, s⟩, none)⟩

/-- A codec whose every call fails. -/
def failingCodec : Codec :=
  ⟨fun _ _ => ([], some "encode failed"), fun _ t _ => (t, some "decode failed")⟩

/-- Every idle encoder of the pool is bound to the pool's format. -/
def EncoderPool.Homogeneous (ep : EncoderPool) : Prop :=
  ∀ e ∈ ep.pool, e.format = ep.format

/-- Every idle decoder of the pool is bound to the pool's format. -/
def DecoderPool.Homogeneous (dp : DecoderPool) : Prop :=
  ∀ d ∈ dp.pool, d.format = dp.format

/-- Source: the loop `for len(encoderPool.pool) > 0 { assert.NotNil(encoderPool.Get()) }`
of `testEncoderPool`, with a bound on its iterations; `none` when the bound is reached
with the pool still not empty. -/
def EncoderPool.drain : Nat → EncoderPool → Option EncoderPool
  | 0, ep => if ep.pool.length > 0 then none else some ep
  | fuel + 1, ep =>
    if ep.pool.length > 0 then EncoderPool.drain fuel ep.Get.2 else some ep

/-- Source: the loop `for len(encoderPool.pool) < initialSize
{ encoderPool.Put(encoderPool.factory()) }` of `testEncoderPool`, with a bound on its
iterations; `none` when the bound is reached with the pool still below `initialSize`. -/
def EncoderPool.refill (initialSize : Nat) : Nat → EncoderPool → Option EncoderPool
  | 0, ep => if ep.pool.length < initialSize then none else some ep
  | fuel + 1, ep =>
    if ep.pool.length < initialSize then
      EncoderPool.refill initialSize fuel (ep.factory.2.Put ep.factory.1)
    else some ep

/-- Source: `testEncoderPool`.  The result lists the outcomes of its assertions in order:
`initialSize > 0`; `NoError(Encode)`; the pool size after `Encode`; `buffer.Len() > 0`; the
pool size after `EncodeBytes`; `NotEmpty(encoded)`; `NoError(err)`;
`Equal(encoded, buffer.Bytes())`; `NotNil(Get())` on the exhausted pool (an instance of the
model is never nil); the pool size after the refill and one more `Put`.  The `NotNil`
assertions inside the drain loop are true for the same reason and are not listed.  The
result is `none` when a loop does not end within `fuel` iterations. -/
def testEncoderPool (codec : Codec) (fuel : Nat) (encoderPool : EncoderPool) :
    Option (List Bool) :=
  let initialSize := encoderPool.pool.length
  let encode := encoderPool.Encode codec [] testMessage
  let buffer := encode.1.2
  let encodeBytes := encode.2.EncodeBytes codec testMessage
  let encoded := encodeBytes.1.1
  match encodeBytes.2.drain fuel with
  | none => none
  | some drained =>
    match drained.Get.2.refill initialSize fuel with
    | none => none
    | some refilled =>
      some [decide (initialSize > 0),
        encode.1.1.isNone,
        decide (initialSize = encode.2.pool.length),
        decide (buffer.length > 0),
        decide (initialSize = encodeBytes.2.pool.length),
        decide (encoded ≠ []),
        encodeBytes.1.2.isNone,
        decide (encoded = buffer),
        true,
        decide (initialSize = (refilled.factory.2.Put refilled.factory.1).pool.length)]

/-- Source: the rows of `TestEncoderPool`: pool size, initial buffer size, format. -/
def encoderTestData : List (Nat × Nat × Format) :=
  [(0, 0, Format.Msgpack), (10, 10, Format.Msgpack), (0, 0, Format.JSON),
    (10, 10, Format.JSON)]

/-- The message of `testDecoderPool`. -/
def originalMessage : Message :=
  ⟨"foobar.com/test", "mac:11112222333", "testDecoderPool".toUTF8.data.toList⟩

/-- Source: the drain loop of `testDecoderPool`, with a bound on its iterations. -/
def DecoderPool.drain : Nat → DecoderPool → Option DecoderPool
  | 0, dp => if dp.pool.length > 0 then none else some dp
  | fuel + 1, dp =>
    if dp.pool.length > 0 then DecoderPool.drain fuel dp.Get.2 else some dp

/-- Source: the refill loop of `testDecoderPool`, with a bound on its iterations. -/
def DecoderPool.refill (initialSize : Nat) : Nat → DecoderPool → Option DecoderPool
  | 0, dp => if dp.pool.length < initialSize then none else some dp
  | fuel + 1, dp =>
    if dp.pool.length < initialSize then
      DecoderPool.refill initialSize fuel (dp.factory.2.Put dp.factory.1)
    else some dp

/-- Source: `testDecoderPool`.  The message is first encoded by a stand-alone encoder of
the format (`NewEncoderBytes(&encoded, format).Encode`), the codec's `encode`; when that
fails the test returns after this one failed assertion.  Otherwise the result lists, in
order: `initialSize > 0`; for `Decode` and then `DecodeBytes` into the same target:
`NoError`, the pool size, `Equal(originalMessage, *testMessage)`; for `DecodeMessage` and
then `DecodeMessageBytes`: `NotNil`, `NoError`, the pool size, `Equal`; `NotNil(Get())` on
the exhausted pool; the pool size after the refill and one more `Put`.  The result is
`none` when a loop does not end within `fuel` iterations. -/
def testDecoderPool (codec : Codec) (fuel : Nat) (format : Format)
    (decoderPool : DecoderPool) : Option (List Bool) :=
  let initialSize := decoderPool.pool.length
  let encoded := (codec.encode format originalMessage).1
  match (codec.encode format originalMessage).2 with
  | some _ => some [false]
  | none =>
    let decode := decoderPool.Decode codec Message.zero encoded
    let decodeBytes := decode.2.DecodeBytes codec decode.1.1 encoded
    let decodeMessage := decodeBytes.2.DecodeMessage codec encoded
    let decodeMessageBytes := decodeMessage.2.DecodeMessageBytes codec encoded
    match decodeMessageBytes.2.drain fuel with
    | none => none
    | some drained =>
      match drained.Get.2.refill initialSize fuel with
      | none => none
      | some refilled =>
        some [true,
          decide (initialSize > 0),
          decode.1.2.isNone,
          decide (initialSize = decode.2.pool.length),
          decide (originalMessage = decode.1.1),
          decodeBytes.1.2.isNone,
          decide (initialSize = decodeBytes.2.pool.length),
          decide (originalMessage = decodeBytes.1.1),
          true,
          decodeMessage.1.2.isNone,
          decide (initialSize = decodeMessage.2.pool.length),
          decide (originalMessage = decodeMessage.1.1),
          true,
          decodeMessageBytes.1.2.isNone,
          decide (initialSize = decodeMessageBytes.2.pool.length),
          decide (originalMessage = decodeMessageBytes.1.1),
          true,
          decide (initialSize = (refilled.factory.2.Put refilled.factory.1).pool.length)]

/-- Source: the rows of `TestDecoderPool`: pool size, format. -/
def decoderTestData : List (Nat × Format) :=
  [(0, Format.Msgpack), (10, Format.Msgpack), (0, Format.JSON), (10, Format.JSON)]

end wrp

/-! ## Part 2: theorems -/

namespace zk

/-! ### Deleting later duplicates -/

theorem keepFirstBy_sublist {α κ : Type} [DecidableEq κ] (key : α → κ) (xs : List α) :
    (keepFirstBy key xs).Sublist xs := by
  induction xs with
  | nil => exact List.Sublist.slnil
  | cons x xs ih =>
    exact List.Sublist.cons₂ x ((List.filter_sublist _).trans ih)

theorem mem_of_mem_keepFirstBy {α κ : Type} [DecidableEq κ] (key : α → κ) (xs : List α)
    (y : α) (h : y ∈ keepFirstBy key xs) : y ∈ xs :=
  (keepFirstBy_sublist key xs).subset h

theorem mem_keepFirstBy_keys {α κ : Type} [DecidableEq κ] (key : α → κ) (xs : List α)
    (k : κ) : k ∈ (keepFirstBy key xs).map key ↔ k ∈ xs.map key := by
  induction xs with
  | nil => simp [keepFirstBy]
  | cons x xs ih =>
    constructor
    · intro h
      obtain ⟨y, hy, rfl⟩ := List.mem_map.1 h
      exact List.mem_map.2 ⟨y, mem_of_mem_keepFirstBy key _ y hy, rfl⟩
    · intro h
      by_cases hk : k = key x
      · subst hk
        simp [keepFirstBy]
      · have h2 : k ∈ xs.map key := by
          rcases List.mem_map.1 h with ⟨y, hy, rfl⟩
          rcases List.mem_cons.1 hy with rfl | hy
          · exact absurd rfl hk
          · exact List.mem_map.2 ⟨y, hy, rfl⟩
        obtain ⟨y, hy, rfl⟩ := List.mem_map.1 (ih.2 h2)
        refine List.mem_map.2 ⟨y, ?_, rfl⟩
        simp only [keepFirstBy, List.mem_cons, List.mem_filter]
        exact Or.inr ⟨hy, by simpa using hk⟩

theorem keepFirstBy_keys_nodup {α κ : Type} [DecidableEq κ] (key : α → κ) (xs : List α) :
    ((keepFirstBy key xs).map key).Nodup := by
  induction xs with
  | nil => simp [keepFirstBy]
  | cons x xs ih =>
    simp only [keepFirstBy, List.map_cons, List.nodup_cons]
    constructor
    · intro h
      obtain ⟨y, hy, hyx⟩ := List.mem_map.1 h
      have := (List.mem_filter.1 hy).2
      simp at this
      exact this hyx
    · exact List.Nodup.sublist ((List.filter_sublist _).map key) ih

theorem keepFirstBy_find {α κ : Type} [DecidableEq κ] (key : α → κ) (xs : List α) (y : α)
    (h : y ∈ keepFirstBy key xs) :
    xs.find? (fun z => decide (key z = key y)) = some y := by
  induction xs with
  | nil => simp [keepFirstBy] at h
  | cons x xs ih =>
    simp only [keepFirstBy, List.mem_cons, List.mem_filter] at h
    rcases h with rfl | ⟨hy, hne⟩
    · simp
    · have hne2 : ¬ key x = key y := by
        intro e
        simp [e] at hne
      simp [List.find?_cons, hne2, ih hy]

/-- Filtering out the keys of a seen set that already holds the key of `x` makes the
filter on `x` redundant. -/
theorem keepFirstBy_filter_seen {α κ : Type} [DecidableEq κ] (key : α → κ) (x : α)
    (seen : List κ) (hx : key x ∈ seen) (l : List α) :
    (l.filter (fun y => decide (key y ≠ key x))).filter (fun y => decide (key y ∉ seen))
      = l.filter (fun y => decide (key y ∉ seen)) := by
  rw [List.filter_filter]
  apply List.filter_congr
  intro y _
  by_cases hy : key y ∈ seen
  · simp [hy]
  · have : key y ≠ key x := fun e => hy (e ▸ hx)
    simp [hy, this]

/-- Filtering by a seen set extended with the key of `x` is filtering by the key of `x`
and then by the seen set. -/
theorem keepFirstBy_filter_snoc {α κ : Type} [DecidableEq κ] (key : α → κ) (x : α)
    (seen : List κ) (l : List α) :
    l.filter (fun y => decide (key y ∉ seen ++ [key x]))
      = (l.filter (fun y => decide (key y ≠ key x))).filter
          (fun y => decide (key y ∉ seen)) := by
  rw [List.filter_filter]
  apply List.filter_congr
  intro y _
  by_cases hy : key y ∈ seen <;> by_cases hyx : key y = key x <;> simp [hy, hyx]

theorem keepFirstBy_filter_nil {α κ : Type} [DecidableEq κ] (key : α → κ) (l : List α) :
    l.filter (fun y => decide (key y ∉ ([] : List κ))) = l := by
  simp

/-! ### The registrar loop -/

/-- What the registrar loop returns, which calls it makes and how many lines it logs. -/
theorem newRegistrarsLoop_eq (base : Logger) (c : Client) (regs : List Registration)
    (dedupe : List String) (r : Registrars) (w : World) :
    (newRegistrarsLoop base c regs dedupe r w).1
        = ⟨r.items ++ ((keepFirstBy endpointOf regs).filter
            (fun y => decide (endpointOf y ∉ dedupe))).map (registrarFor base c)⟩
      ∧ (newRegistrarsLoop base c regs dedupe r w).2.calls
        = w.calls ++ ((keepFirstBy endpointOf regs).filter
            (fun y => decide (endpointOf y ∉ dedupe))).map
              (fun reg => Call.NewRegistrar c (newService reg).2
                (base.With "endpoint" (newService reg).1))
      ∧ (newRegistrarsLoop base c regs dedupe r w).2.logged.length
          + ((keepFirstBy endpointOf regs).filter
            (fun y => decide (endpointOf y ∉ dedupe))).length
        = w.logged.length + regs.length := by
  induction regs generalizing dedupe r w with
  | nil => simp [newRegistrarsLoop, keepFirstBy]
  | cons reg rest ih =>
    by_cases h : endpointOf reg ∈ dedupe
    · have hg : dedupeGet dedupe (newService reg).1 = true := by
        simpa [dedupeGet, endpointOf] using h
      have hf : (keepFirstBy endpointOf (reg :: rest)).filter
            (fun y => decide (endpointOf y ∉ dedupe))
          = (keepFirstBy endpointOf rest).filter
            (fun y => decide (endpointOf y ∉ dedupe)) := by
        simp only [keepFirstBy]
        rw [List.filter_cons_of_neg (by simpa using h)]
        exact keepFirstBy_filter_seen endpointOf reg dedupe h _
      simp only [newRegistrarsLoop, hg, if_true]
      rw [hf]
      obtain ⟨h1, h2, h3⟩ := ih dedupe r
        (w.log base [levelKey, levelWarnValue, MessageKey,
          "skipping duplicate registration", "endpoint", (newService reg).1])
      refine ⟨h1, ?_, ?_⟩
      · rw [h2]; rfl
      · rw [h3]; simp [World.log]; omega
    · have hg : dedupeGet dedupe (newService reg).1 = false := by
        simpa [dedupeGet, endpointOf] using h
      have hs : dedupeSet dedupe (newService reg).1 = dedupe ++ [endpointOf reg] := by
        simp only [dedupeSet, endpointOf] at h ⊢
        rw [if_neg h]
      have hf : (keepFirstBy endpointOf (reg :: rest)).filter
            (fun y => decide (endpointOf y ∉ dedupe))
          = reg :: (keepFirstBy endpointOf rest).filter
            (fun y => decide (endpointOf y ∉ dedupe ++ [endpointOf reg])) := by
        simp only [keepFirstBy]
        rw [List.filter_cons_of_pos (by simpa using h)]
        rw [keepFirstBy_filter_snoc]
      simp only [newRegistrarsLoop, hg, hs]
      rw [hf]
      obtain ⟨h1, h2, h3⟩ := ih (dedupe ++ [endpointOf reg])
        (r.Add ⟨c, (newService reg).2, base.With "endpoint" (newService reg).1⟩)
        (w.call (Call.NewRegistrar c (newService reg).2
          (base.With "endpoint" (newService reg).1)))
      refine ⟨?_, ?_, ?_⟩
      · simp only [Bool.false_eq_true, if_false]
        rw [h1]
        simp [Registrars.Add, registrarFor]
      · simp only [Bool.false_eq_true, if_false]
        rw [h2]
        simp [World.call]
      · simp only [Bool.false_eq_true, if_false]
        simp only [List.length_cons]
        have : (w.call (Call.NewRegistrar c (newService reg).2
          (base.With "endpoint" (newService reg).1))).logged = w.logged := rfl
        rw [this] at h3
        omega

/-! ### The instancer loop -/

theorem Instancers.keys_Set_of_not_Has (i : Instancers) (key : String) (v : Instancer)
    (h : key ∉ i.keys) :
    (i.Set key v).entries = i.entries ++ [(key, v)] ∧ (i.Set key v).keys = i.keys ++ [key] := by
  have hh : i.Has key = false := by simpa [Instancers.Has] using h
  simp [Instancers.Set, hh, Instancers.keys]

/-- What the instancer loop does in general: the paths it attempts are a prefix of the
distinct unseen paths, each attempt is one library call, and when it returns no error it
attempted them all and holds one contextual instancer for each. -/
theorem newInstancersLoop_calls (lib : Gokitzk) (l : Logger) (c : Client)
    (ws : List String) (i : Instancers) (w : World) :
    ∃ attempted : List String,
      attempted <+: (distinctPaths ws).filter (fun p => decide (p ∉ i.keys))
      ∧ (newInstancersLoop lib l c ws i w).2.calls
          = w.calls ++ attempted.map (fun p => Call.NewInstancer c p l)
      ∧ ((newInstancersLoop lib l c ws i w).1.2 = none →
          attempted = (distinctPaths ws).filter (fun p => decide (p ∉ i.keys))
          ∧ (newInstancersLoop lib l c ws i w).1.1.keys = i.keys ++ attempted
          ∧ ∀ kv ∈ (newInstancersLoop lib l c ws i w).1.1.entries,
              kv ∈ i.entries ∨
                ∃ n, kv.2 = Instancer.contextual (Instancer.zk n) [("path", kv.1)]) := by
  induction ws generalizing i w with
  | nil =>
    refine ⟨[], ?_, ?_, ?_⟩
    · simp [distinctPaths, keepFirstBy]
    · simp [newInstancersLoop]
    · intro _
      refine ⟨by simp [distinctPaths, keepFirstBy], by simp [newInstancersLoop], ?_⟩
      intro kv hkv
      exact Or.inl (by simpa [newInstancersLoop] using hkv)
  | cons path rest ih =>
    by_cases h : path ∈ i.keys
    · have hh : i.Has path = true := by simpa [Instancers.Has] using h
      have hf : (distinctPaths (path :: rest)).filter (fun p => decide (p ∉ i.keys))
          = (distinctPaths rest).filter (fun p => decide (p ∉ i.keys)) := by
        simp only [distinctPaths, keepFirstBy]
        rw [List.filter_cons_of_neg (by simpa using h)]
        exact keepFirstBy_filter_seen id path i.keys h _
      simp only [newInstancersLoop, hh, if_true]
      rw [hf]
      exact ih i _
    · have hh : i.Has path = false := by simpa [Instancers.Has] using h
      cases hN : lib.NewInstancer w.calls c path l with
      | error err =>
        refine ⟨[path], ?_, ?_, ?_⟩
        · simp only [distinctPaths, keepFirstBy]
          rw [List.filter_cons_of_pos (by simpa using h)]
          simp
        · simp [newInstancersLoop, hh, newInstancer, hN, World.call]
        · simp [newInstancersLoop, hh, newInstancer, hN]
      | ok n =>
        have hf : (distinctPaths (path :: rest)).filter (fun p => decide (p ∉ i.keys))
            = path :: (distinctPaths rest).filter
              (fun p => decide (p ∉ i.keys ++ [path])) := by
          simp only [distinctPaths, keepFirstBy]
          rw [List.filter_cons_of_pos (by simpa using h)]
          exact congrArg (List.cons path) (keepFirstBy_filter_snoc id path i.keys _).symm
        obtain ⟨hent, hkeys⟩ := Instancers.keys_Set_of_not_Has i path
          (Instancer.contextual (Instancer.zk n) [("path", path)]) h
        obtain ⟨att, h1, h2, h3⟩ := ih
          (i.Set path (Instancer.contextual (Instancer.zk n) [("path", path)]))
          (w.call (Call.NewInstancer c path l))
        have hloop : newInstancersLoop lib l c (path :: rest) i w
            = newInstancersLoop lib l c rest
              (i.Set path (Instancer.contextual (Instancer.zk n) [("path", path)]))
              (w.call (Call.NewInstancer c path l)) := by
          simp [newInstancersLoop, hh, newInstancer, hN]
        rw [hloop, hf]
        rw [hkeys] at h1 h3
        refine ⟨path :: att, ?_, ?_, ?_⟩
        · exact (List.prefix_cons_inj path).2 h1
        · rw [h2]
          simp [World.call]
        · intro hnone
          obtain ⟨e1, e2, e3⟩ := h3 hnone
          refine ⟨by rw [e1], by rw [e2]; simp, ?_⟩
          intro kv hkv
          rcases e3 kv hkv with hin | hex
          · rw [hent] at hin
            rcases List.mem_append.1 hin with hin | hin
            · exact Or.inl hin
            · right
              simp only [List.mem_singleton] at hin
              subst hin
              exact ⟨n, rfl⟩
          · exact Or.inr hex

/-- When every creation for a listed path succeeds, the instancer loop returns no error. -/
theorem newInstancersLoop_no_error (lib : Gokitzk) (l : Logger) (c : Client)
    (ws : List String) (i : Instancers) (w : World)
    (hok : ∀ (h : List Call) (p : String), p ∈ ws → ∃ n, lib.NewInstancer h c p l = Except.ok n) :
    (newInstancersLoop lib l c ws i w).1.2 = none := by
  induction ws generalizing i w with
  | nil => simp [newInstancersLoop]
  | cons path rest ih =>
    have hrest : ∀ (h : List Call) (p : String), p ∈ rest →
        ∃ n, lib.NewInstancer h c p l = Except.ok n :=
      fun h p hp => hok h p (List.mem_cons_of_mem _ hp)
    by_cases hh : i.Has path = true
    · simp only [newInstancersLoop, hh, if_true]
      exact ih i _ hrest
    · obtain ⟨n, hn⟩ := hok w.calls path (List.mem_cons_self _ _)
      have hloop : newInstancersLoop lib l c (path :: rest) i w
          = newInstancersLoop lib l c rest
            (i.Set path (Instancer.contextual (Instancer.zk n) [("path", path)]))
            (w.call (Call.NewInstancer c path l)) := by
        simp [newInstancersLoop, hh, newInstancer, hn]
      rw [hloop]
      exact ih _ _ hrest

/-- When the instancer loop returns an error, it is the error of the last creation it
attempted, every earlier attempt succeeded, and the set returned holds the earlier paths. -/
theorem newInstancersLoop_error (lib : Gokitzk) (l : Logger) (c : Client)
    (ws : List String) (i : Instancers) (w : World) (e : Error)
    (herr : (newInstancersLoop lib l c ws i w).1.2 = some e) :
    ∃ (pre : List String) (p : String),
      pre ++ [p] <+: (distinctPaths ws).filter (fun q => decide (q ∉ i.keys))
      ∧ (newInstancersLoop lib l c ws i w).2.calls
          = w.calls ++ (pre ++ [p]).map (fun q => Call.NewInstancer c q l)
      ∧ lib.NewInstancer (w.calls ++ pre.map (fun q => Call.NewInstancer c q l)) c p l
          = Except.error e
      ∧ (newInstancersLoop lib l c ws i w).1.1.keys = i.keys ++ pre := by
  induction ws generalizing i w with
  | nil => simp [newInstancersLoop] at herr
  | cons path rest ih =>
    by_cases h : path ∈ i.keys
    · have hh : i.Has path = true := by simpa [Instancers.Has] using h
      have hf : (distinctPaths (path :: rest)).filter (fun p => decide (p ∉ i.keys))
          = (distinctPaths rest).filter (fun p => decide (p ∉ i.keys)) := by
        simp only [distinctPaths, keepFirstBy]
        rw [List.filter_cons_of_neg (by simpa using h)]
        exact keepFirstBy_filter_seen id path i.keys h _
      simp only [newInstancersLoop, hh, if_true] at herr ⊢
      rw [hf]
      exact ih i _ herr
    · have hh : i.Has path = false := by simpa [Instancers.Has] using h
      cases hN : lib.NewInstancer w.calls c path l with
      | error err =>
        have he : err = e := by
          simpa [newInstancersLoop, hh, newInstancer, hN] using herr
        subst he
        refine ⟨[], path, ?_, ?_, ?_, ?_⟩
        · simp only [distinctPaths, keepFirstBy]
          rw [List.filter_cons_of_pos (by simpa using h)]
          simp
        · simp [newInstancersLoop, hh, newInstancer, hN, World.call]
        · simpa using hN
        · simp [newInstancersLoop, hh, newInstancer, hN]
      | ok n =>
        have hf : (distinctPaths (path :: rest)).filter (fun p => decide (p ∉ i.keys))
            = path :: (distinctPaths rest).filter
              (fun p => decide (p ∉ i.keys ++ [path])) := by
          simp only [distinctPaths, keepFirstBy]
          rw [List.filter_cons_of_pos (by simpa using h)]
          exact congrArg (List.cons path) (keepFirstBy_filter_snoc id path i.keys _).symm
        obtain ⟨_, hkeys⟩ := Instancers.keys_Set_of_not_Has i path
          (Instancer.contextual (Instancer.zk n) [("path", path)]) h
        have hloop : newInstancersLoop lib l c (path :: rest) i w
            = newInstancersLoop lib l c rest
              (i.Set path (Instancer.contextual (Instancer.zk n) [("path", path)]))
              (w.call (Call.NewInstancer c path l)) := by
          simp [newInstancersLoop, hh, newInstancer, hN]
        rw [hloop] at herr ⊢
        obtain ⟨pre, p, h1, h2, h3, h4⟩ := ih _ _ herr
        rw [hkeys] at h1 h4
        rw [hf]
        refine ⟨path :: pre, p, ?_, ?_, ?_, ?_⟩
        · exact (List.prefix_cons_inj path).2 h1
        · rw [h2]
          simp [World.call]
        · simpa [World.call] using h3
        · rw [h4]
          simp

/-! ### The four outcomes of `NewEnvironment` -/

theorem NewEnvironment_noop (lib : Gokitzk) (l : Option Logger) (zo : Options)
    (eo : List ServiceOption) (w : World) (h : zo.Watches = [] ∧ zo.Registrations = []) :
    NewEnvironment lib l zo eo w = ((none, none), w) := by
  simp [NewEnvironment, h.1, h.2]

theorem NewEnvironment_connect_error (lib : Gokitzk) (l : Option Logger) (zo : Options)
    (eo : List ServiceOption) (w : World) (e : Error)
    (h : ¬ (zo.Watches = [] ∧ zo.Registrations = []))
    (hc : lib.clientFactory w.calls zo.servers (loggerOf l)
      [ClientOption.ConnectTimeout zo.connectTimeout,
        ClientOption.SessionTimeout zo.sessionTimeout] = Except.error e) :
    NewEnvironment lib l zo eo w = ((none, some e), w.call (connectCall (loggerOf l) zo)) := by
  have hb : (zo.Watches.length == 0 && zo.Registrations.length == 0) = false := by
    simpa [List.length_eq_zero] using h
  cases l <;> simp_all [NewEnvironment, newClient, loggerOf, connectCall]

theorem NewEnvironment_instancer_error (lib : Gokitzk) (l : Option Logger) (zo : Options)
    (eo : List ServiceOption) (w : World) (c : Client) (e : Error)
    (h : ¬ (zo.Watches = [] ∧ zo.Registrations = []))
    (hc : lib.clientFactory w.calls zo.servers (loggerOf l)
      [ClientOption.ConnectTimeout zo.connectTimeout,
        ClientOption.SessionTimeout zo.sessionTimeout] = Except.ok c)
    (hi : (newInstancers lib (loggerOf l) c zo (w.call (connectCall (loggerOf l) zo))).1.2
      = some e) :
    NewEnvironment lib l zo eo w
      = ((none, some e),
          (newInstancers lib (loggerOf l) c zo (w.call (connectCall (loggerOf l) zo))).2.call
            (Call.Stop c)) := by
  have hb : (zo.Watches.length == 0 && zo.Registrations.length == 0) = false := by
    simpa [List.length_eq_zero] using h
  have key : ∀ l0 : Logger,
      lib.clientFactory w.calls zo.servers l0
        [ClientOption.ConnectTimeout zo.connectTimeout,
          ClientOption.SessionTimeout zo.sessionTimeout] = Except.ok c →
      (newInstancers lib l0 c zo (w.call (connectCall l0 zo))).1.2 = some e →
      (match newInstancers lib l0 c zo (w.call (connectCall l0 zo)) with
        | ((_, some err), w2) => ((none, some err), w2.call (Call.Stop c))
        | ((i, none), w2) =>
          ((some (serviceNewEnvironment (eo ++ [ServiceOption.WithRegistrar
            (newRegistrars l0 c zo w2).1, ServiceOption.WithInstancers i,
            ServiceOption.WithCloser (stopCloser c)])), none), (newRegistrars l0 c zo w2).2))
        = (((none : Option Environment), some e),
            (newInstancers lib l0 c zo (w.call (connectCall l0 zo))).2.call (Call.Stop c)) := by
    intro l0 _ hi0
    generalize newInstancers lib l0 c zo (w.call (connectCall l0 zo)) = R at hi0 ⊢
    obtain ⟨⟨i, oe⟩, w2⟩ := R
    simp only at hi0
    subst hi0
    rfl
  cases l with
  | none =>
    simp only [NewEnvironment, hb, newClient, Bool.false_eq_true, if_false]
    simp only [loggerOf, Option.getD] at hc hi
    rw [hc]
    exact key DefaultLogger hc hi
  | some l0 =>
    simp only [NewEnvironment, hb, newClient, Bool.false_eq_true, if_false]
    simp only [loggerOf, Option.getD] at hc hi
    rw [hc]
    exact key l0 hc hi

theorem NewEnvironment_success (lib : Gokitzk) (l : Option Logger) (zo : Options)
    (eo : List ServiceOption) (w : World) (c : Client)
    (h : ¬ (zo.Watches = [] ∧ zo.Registrations = []))
    (hc : lib.clientFactory w.calls zo.servers (loggerOf l)
      [ClientOption.ConnectTimeout zo.connectTimeout,
        ClientOption.SessionTimeout zo.sessionTimeout] = Except.ok c)
    (hi : (newInstancers lib (loggerOf l) c zo (w.call (connectCall (loggerOf l) zo))).1.2
      = none) :
    NewEnvironment lib l zo eo w
      = ((some (serviceNewEnvironment (eo ++ [ServiceOption.WithRegistrar
            (newRegistrars (loggerOf l) c zo
              (newInstancers lib (loggerOf l) c zo
                (w.call (connectCall (loggerOf l) zo))).2).1,
          ServiceOption.WithInstancers
            (newInstancers lib (loggerOf l) c zo (w.call (connectCall (loggerOf l) zo))).1.1,
          ServiceOption.WithCloser (stopCloser c)])), none),
          (newRegistrars (loggerOf l) c zo
            (newInstancers lib (loggerOf l) c zo
              (w.call (connectCall (loggerOf l) zo))).2).2) := by
  have hb : (zo.Watches.length == 0 && zo.Registrations.length == 0) = false := by
    simpa [List.length_eq_zero] using h
  have key : ∀ l0 : Logger,
      (newInstancers lib l0 c zo (w.call (connectCall l0 zo))).1.2 = none →
      (match newInstancers lib l0 c zo (w.call (connectCall l0 zo)) with
        | ((_, some err), w2) => ((none, some err), w2.call (Call.Stop c))
        | ((i, none), w2) =>
          ((some (serviceNewEnvironment (eo ++ [ServiceOption.WithRegistrar
            (newRegistrars l0 c zo w2).1, ServiceOption.WithInstancers i,
            ServiceOption.WithCloser (stopCloser c)])), none), (newRegistrars l0 c zo w2).2))
        = ((some (serviceNewEnvironment (eo ++ [ServiceOption.WithRegistrar
            (newRegistrars l0 c zo
              (newInstancers lib l0 c zo (w.call (connectCall l0 zo))).2).1,
            ServiceOption.WithInstancers
              (newInstancers lib l0 c zo (w.call (connectCall l0 zo))).1.1,
            ServiceOption.WithCloser (stopCloser c)])), (none : Option Error)),
            (newRegistrars l0 c zo
              (newInstancers lib l0 c zo (w.call (connectCall l0 zo))).2).2) := by
    intro l0 hi0
    generalize newInstancers lib l0 c zo (w.call (connectCall l0 zo)) = R at hi0 ⊢
    obtain ⟨⟨i, oe⟩, w2⟩ := R
    simp only at hi0
    subst hi0
    rfl
  cases l with
  | none =>
    simp only [NewEnvironment, hb, newClient, Bool.false_eq_true, if_false]
    simp only [loggerOf, Option.getD] at hc hi
    rw [hc]
    exact key DefaultLogger hi
  | some l0 =>
    simp only [NewEnvironment, hb, newClient, Bool.false_eq_true, if_false]
    simp only [loggerOf, Option.getD] at hc hi
    rw [hc]
    exact key l0 hi

/-! ### `newInstancers` and `newRegistrars` from their loops -/

theorem distinctPaths_filter_empty (ws : List String) :
    (distinctPaths ws).filter (fun p => decide (p ∉ Instancers.empty.keys))
      = distinctPaths ws := by
  simp [Instancers.empty, Instancers.keys]

theorem newInstancers_calls (lib : Gokitzk) (l : Logger) (c : Client) (zo : Options)
    (w : World) :
    ∃ attempted : List String,
      attempted <+: distinctPaths zo.watches
      ∧ (newInstancers lib l c zo w).2.calls
          = w.calls ++ attempted.map (fun p => Call.NewInstancer c p l)
      ∧ ((newInstancers lib l c zo w).1.2 = none →
          attempted = distinctPaths zo.watches
          ∧ (newInstancers lib l c zo w).1.1.keys = distinctPaths zo.watches
          ∧ ∀ kv ∈ (newInstancers lib l c zo w).1.1.entries,
              ∃ n, kv.2 = Instancer.contextual (Instancer.zk n) [("path", kv.1)]) := by
  obtain ⟨att, h1, h2, h3⟩ :=
    newInstancersLoop_calls lib l c zo.watches Instancers.empty w
  rw [distinctPaths_filter_empty] at h1 h3
  refine ⟨att, h1, h2, ?_⟩
  intro hnone
  obtain ⟨e1, e2, e3⟩ := h3 hnone
  refine ⟨e1, ?_, ?_⟩
  · have : (newInstancers lib l c zo w).1.1.keys = Instancers.empty.keys ++ att := e2
    rw [this, e1]
    simp [Instancers.empty, Instancers.keys]
  · intro kv hkv
    rcases e3 kv hkv with hin | hex
    · simp [Instancers.empty] at hin
    · exact hex

theorem newRegistrars_eq (base : Logger) (c : Client) (zo : Options) (w : World) :
    (newRegistrars base c zo w).1.items
        = (keepFirstBy endpointOf zo.registrations).map (registrarFor base c)
      ∧ (newRegistrars base c zo w).2.calls
        = w.calls ++ (keepFirstBy endpointOf zo.registrations).map
            (fun reg => Call.NewRegistrar c (newService reg).2
              (base.With "endpoint" (newService reg).1))
      ∧ (newRegistrars base c zo w).2.logged.length
          + (keepFirstBy endpointOf zo.registrations).length
        = w.logged.length + zo.registrations.length := by
  obtain ⟨h1, h2, h3⟩ :=
    newRegistrarsLoop_eq base c zo.registrations [] Registrars.empty w
  rw [keepFirstBy_filter_nil] at h1 h2 h3
  refine ⟨?_, h2, h3⟩
  have : (newRegistrars base c zo w).1
      = ⟨Registrars.empty.items
          ++ (keepFirstBy endpointOf zo.registrations).map (registrarFor base c)⟩ := h1
  rw [this]
  simp [Registrars.empty]

theorem Registrar.endpoint_registrarFor (base : Logger) (c : Client) (r : Registration) :
    (registrarFor base c r).endpoint = some (endpointOf r) := by
  simp [Registrar.endpoint, registrarFor, Logger.With, endpointOf]

/-! ### Claims about the environment builder -/

/-- C1: for every logger and every Options whose Watches and Registrations are both empty,
NewEnvironment returns a nil environment and a nil error and leaves the world as it was (no
client factory call, no instancer, no registrar, no stop); for every Options in which one of
the two lists is non-empty, the first call it makes is the client factory call, and no later
call of the build is a client factory call. -/
theorem C1_NewEnvironment_noop_or_connect_once (lib : Gokitzk) (l : Option Logger)
    (zo : Options) (eo : List ServiceOption) (w : World) :
    (zo.Watches = [] ∧ zo.Registrations = [] →
        NewEnvironment lib l zo eo w = ((none, none), w))
    ∧ (¬ (zo.Watches = [] ∧ zo.Registrations = []) →
        ∃ rest : List Call,
          (NewEnvironment lib l zo eo w).2.calls
              = w.calls ++ connectCall (loggerOf l) zo :: rest
          ∧ ∀ x ∈ rest, ∀ s lg o, x ≠ Call.clientFactory s lg o) := by
  refine ⟨NewEnvironment_noop lib l zo eo w, ?_⟩
  intro h
  cases hc : lib.clientFactory w.calls zo.servers (loggerOf l)
      [ClientOption.ConnectTimeout zo.connectTimeout,
        ClientOption.SessionTimeout zo.sessionTimeout] with
  | error e =>
    refine ⟨[], ?_, by simp⟩
    rw [NewEnvironment_connect_error lib l zo eo w e h hc]
    rfl
  | ok c =>
    obtain ⟨att, _, hcalls, _⟩ :=
      newInstancers_calls lib (loggerOf l) c zo (w.call (connectCall (loggerOf l) zo))
    cases hi : (newInstancers lib (loggerOf l) c zo
        (w.call (connectCall (loggerOf l) zo))).1.2 with
    | some e =>
      refine ⟨att.map (fun p => Call.NewInstancer c p (loggerOf l)) ++ [Call.Stop c], ?_, ?_⟩
      · rw [NewEnvironment_instancer_error lib l zo eo w c e h hc hi]
        show _ ++ [Call.Stop c] = _
        rw [hcalls]
        simp [World.call]
      · intro x hx s lg o hxe
        subst hxe
        simp at hx
    | none =>
      obtain ⟨_, hr, _⟩ := newRegistrars_eq (loggerOf l) c zo
        (newInstancers lib (loggerOf l) c zo (w.call (connectCall (loggerOf l) zo))).2
      refine ⟨att.map (fun p => Call.NewInstancer c p (loggerOf l))
        ++ (keepFirstBy endpointOf zo.registrations).map
            (fun reg => Call.NewRegistrar c (newService reg).2
              ((loggerOf l).With "endpoint" (newService reg).1)), ?_, ?_⟩
      · rw [NewEnvironment_success lib l zo eo w c h hc hi]
        show (newRegistrars _ _ _ _).2.calls = _
        rw [hr, hcalls]
        simp [World.call]
      · intro x hx s lg o hxe
        subst hxe
        simp at hx

/-- C1, at a configuration with nothing to do and at one with watches and registrations. -/
theorem C1_NewEnvironment_noop_or_connect_once_witness :
    NewEnvironment exampleLib none idleOptions [] emptyWorld = ((none, none), emptyWorld)
    ∧ ∃ rest : List Call,
        (NewEnvironment exampleLib none exampleOptions [] emptyWorld).2.calls
            = emptyWorld.calls ++ connectCall (loggerOf none) exampleOptions :: rest
        ∧ ∀ x ∈ rest, ∀ s lg o, x ≠ Call.clientFactory s lg o :=
  ⟨(C1_NewEnvironment_noop_or_connect_once exampleLib none idleOptions [] emptyWorld).1
      ⟨rfl, rfl⟩,
    (C1_NewEnvironment_noop_or_connect_once exampleLib none exampleOptions [] emptyWorld).2
      (by decide)⟩

/-- C2: when every instancer creation for a listed watch path succeeds, newInstancers
returns no error and an instancer set whose keys are exactly the distinct paths of the list
in order of first occurrence: the keys are without repetition, a path is a key if and only
if it is listed, there are as many entries as distinct paths, exactly one instancer is
created per distinct path in that order, and every entry holds the contextual instancer of
its own path. -/
theorem C2_newInstancers_one_per_distinct_path (lib : Gokitzk) (l : Logger) (c : Client)
    (zo : Options) (w : World)
    (hok : ∀ (h : List Call) (p : String), p ∈ zo.watches →
      ∃ n, lib.NewInstancer h c p l = Except.ok n) :
    (newInstancers lib l c zo w).1.2 = none
    ∧ (newInstancers lib l c zo w).1.1.keys = distinctPaths zo.watches
    ∧ (newInstancers lib l c zo w).1.1.keys.Nodup
    ∧ (∀ p, p ∈ (newInstancers lib l c zo w).1.1.keys ↔ p ∈ zo.watches)
    ∧ (newInstancers lib l c zo w).1.1.keys.Sublist zo.watches
    ∧ (newInstancers lib l c zo w).1.1.Len = zo.watches.dedup.length
    ∧ (newInstancers lib l c zo w).2.calls
        = w.calls ++ (distinctPaths zo.watches).map (fun p => Call.NewInstancer c p l)
    ∧ ∀ kv ∈ (newInstancers lib l c zo w).1.1.entries,
        ∃ n, kv.2 = Instancer.contextual (Instancer.zk n) [("path", kv.1)] := by
  have hnone : (newInstancers lib l c zo w).1.2 = none :=
    newInstancersLoop_no_error lib l c zo.watches Instancers.empty w hok
  obtain ⟨att, _, hcalls, h3⟩ := newInstancers_calls lib l c zo w
  obtain ⟨hatt, hkeys, hent⟩ := h3 hnone
  have hnodup : (distinctPaths zo.watches).Nodup := by
    have := keepFirstBy_keys_nodup (id : String → String) zo.watches
    simpa [distinctPaths] using this
  have hmem : ∀ p, p ∈ distinctPaths zo.watches ↔ p ∈ zo.watches := by
    intro p
    have := mem_keepFirstBy_keys (id : String → String) zo.watches p
    simpa [distinctPaths] using this
  refine ⟨hnone, hkeys, ?_, ?_, ?_, ?_, ?_, hent⟩
  · rw [hkeys]; exact hnodup
  · rw [hkeys]; exact hmem
  · rw [hkeys]; exact keepFirstBy_sublist id zo.watches
  · have hlen : (newInstancers lib l c zo w).1.1.Len
        = (newInstancers lib l c zo w).1.1.keys.length := by
      simp [Instancers.Len, Instancers.keys]
    rw [hlen, hkeys]
    apply List.Perm.length_eq
    exact (List.perm_ext_iff_of_nodup hnodup (List.nodup_dedup _)).2
      (fun a => by rw [hmem, List.mem_dedup])
  · rw [hcalls, hatt]

/-- C2, at the watches `/svc/a`, `/svc/a`, `/svc/b`: two entries, keyed `/svc/a` and
`/svc/b`. -/
theorem C2_newInstancers_one_per_distinct_path_witness :
    (newInstancers exampleLib DefaultLogger ⟨1⟩ exampleOptions emptyWorld).1.2 = none
    ∧ (newInstancers exampleLib DefaultLogger ⟨1⟩ exampleOptions emptyWorld).1.1.keys
        = ["/svc/a", "/svc/b"]
    ∧ (newInstancers exampleLib DefaultLogger ⟨1⟩ exampleOptions emptyWorld).1.1.Len = 2 :=
  have h := C2_newInstancers_one_per_distinct_path exampleLib DefaultLogger ⟨1⟩
    exampleOptions emptyWorld (fun h _ _ => ⟨h.length, rfl⟩)
  ⟨h.1, h.2.1.trans (by decide), h.2.2.2.2.2.1.trans (by decide)⟩

/-- C3: for every list of registrations, newRegistrars returns a registrar sequence (it has
no error result) in which no two registrars are labelled with the same endpoint identity;
the endpoint identities of the registrars are exactly those of the registrations, there are
as many registrars as distinct endpoint identities, each registrar is the one built from
the first registration with its identity, the registrars follow the configuration order of
those first occurrences, and one registrar creation is made for each of them, in order. -/
theorem C3_newRegistrars_one_per_endpoint (base : Logger) (c : Client) (zo : Options)
    (w : World) :
    (newRegistrars base c zo w).1.items
        = (keepFirstBy endpointOf zo.registrations).map (registrarFor base c)
    ∧ ((newRegistrars base c zo w).1.items.map Registrar.endpoint).Nodup
    ∧ (∀ e, some e ∈ (newRegistrars base c zo w).1.items.map Registrar.endpoint
        ↔ e ∈ zo.registrations.map endpointOf)
    ∧ (newRegistrars base c zo w).1.items.length
        = (zo.registrations.map endpointOf).dedup.length
    ∧ (∀ reg ∈ keepFirstBy endpointOf zo.registrations,
        zo.registrations.find? (fun z => decide (endpointOf z = endpointOf reg)) = some reg)
    ∧ (keepFirstBy endpointOf zo.registrations).Sublist zo.registrations
    ∧ (newRegistrars base c zo w).2.calls
        = w.calls ++ (keepFirstBy endpointOf zo.registrations).map
            (fun reg => Call.NewRegistrar c (newService reg).2
              (base.With "endpoint" (newService reg).1)) := by
  obtain ⟨hitems, hcalls, _⟩ := newRegistrars_eq base c zo w
  have hep : (newRegistrars base c zo w).1.items.map Registrar.endpoint
      = ((keepFirstBy endpointOf zo.registrations).map endpointOf).map some := by
    rw [hitems, List.map_map, List.map_map]
    apply List.map_congr_left
    intro r _
    exact Registrar.endpoint_registrarFor base c r
  have hnodup := keepFirstBy_keys_nodup endpointOf zo.registrations
  have hmem := mem_keepFirstBy_keys endpointOf zo.registrations
  refine ⟨hitems, ?_, ?_, ?_, ?_, keepFirstBy_sublist endpointOf zo.registrations, hcalls⟩
  · rw [hep]
    exact hnodup.map (Option.some_injective _)
  · intro e
    rw [hep, ← hmem e]
    constructor
    · intro h
      obtain ⟨x, hx, hxe⟩ := List.mem_map.1 h
      cases hxe
      exact hx
    · intro h
      exact List.mem_map.2 ⟨e, h, rfl⟩
  · rw [hitems, List.length_map,
      ← List.length_map (keepFirstBy endpointOf zo.registrations) endpointOf]
    apply List.Perm.length_eq
    exact (List.perm_ext_iff_of_nodup hnodup (List.nodup_dedup _)).2
      (fun a => by rw [hmem, List.mem_dedup])
  · intro reg hreg
    exact keepFirstBy_find endpointOf zo.registrations reg hreg

/-- C3, at two registrations of the endpoint `http://10.0.0.1:8080`: exactly one registrar,
bound to the service record of the first. -/
theorem C3_newRegistrars_one_per_endpoint_example :
    (newRegistrars DefaultLogger ⟨1⟩ exampleOptions emptyWorld).1.items
      = [⟨⟨1⟩, ⟨"/reg/api", "api", bytesOf "http://10.0.0.1:8080"⟩,
          DefaultLogger.With "endpoint" "http://10.0.0.1:8080"⟩] :=
  (C3_newRegistrars_one_per_endpoint DefaultLogger ⟨1⟩ exampleOptions emptyWorld).1.trans
    (by decide)

/-- C4: for every Options with a non-empty watch or registration list, if the client
factory returns an error then NewEnvironment returns a nil environment and that same error,
and the only call of the build is the client factory call: no instancer and no registrar is
created, no client is stopped, and nothing is logged. -/
theorem C4_NewEnvironment_connect_failure (lib : Gokitzk) (l : Option Logger)
    (zo : Options) (eo : List ServiceOption) (w : World) (e : Error)
    (hne : ¬ (zo.Watches = [] ∧ zo.Registrations = []))
    (herr : lib.clientFactory w.calls zo.servers (loggerOf l)
      [ClientOption.ConnectTimeout zo.connectTimeout,
        ClientOption.SessionTimeout zo.sessionTimeout] = Except.error e) :
    (NewEnvironment lib l zo eo w).1 = (none, some e)
    ∧ (NewEnvironment lib l zo eo w).2.calls = w.calls ++ [connectCall (loggerOf l) zo]
    ∧ (NewEnvironment lib l zo eo w).2.logged = w.logged := by
  rw [NewEnvironment_connect_error lib l zo eo w e hne herr]
  exact ⟨rfl, rfl, rfl⟩

/-- C4, at a library whose client factory refuses the connection. -/
theorem C4_NewEnvironment_connect_failure_witness :
    (NewEnvironment refusingLib none exampleOptions [] emptyWorld).1
        = (none, some "connection refused")
    ∧ (NewEnvironment refusingLib none exampleOptions [] emptyWorld).2.calls
        = emptyWorld.calls ++ [connectCall (loggerOf none) exampleOptions]
    ∧ (NewEnvironment refusingLib none exampleOptions [] emptyWorld).2.logged
        = emptyWorld.logged :=
  C4_NewEnvironment_connect_failure refusingLib none exampleOptions [] emptyWorld
    "connection refused" (by decide) rfl

/-- C5: for every Options for which the client connects and newInstancers fails with error
e, NewEnvironment returns a nil environment and the error e; e is the error of the creation
of a watch path, the last creation attempted; and the calls of the build are the client
factory call, the instancer creations up to the failing one, and one Stop of the opened
client at the end: the client is stopped exactly once and no registrar is created. -/
theorem C5_NewEnvironment_instancer_failure (lib : Gokitzk) (l : Option Logger)
    (zo : Options) (eo : List ServiceOption) (w : World) (c : Client) (e : Error)
    (hne : ¬ (zo.Watches = [] ∧ zo.Registrations = []))
    (hc : lib.clientFactory w.calls zo.servers (loggerOf l)
      [ClientOption.ConnectTimeout zo.connectTimeout,
        ClientOption.SessionTimeout zo.sessionTimeout] = Except.ok c)
    (hi : (newInstancers lib (loggerOf l) c zo (w.call (connectCall (loggerOf l) zo))).1.2
      = some e) :
    (NewEnvironment lib l zo eo w).1 = (none, some e)
    ∧ ∃ (pre : List String) (p : String) (new : List Call),
        pre ++ [p] <+: distinctPaths zo.watches
        ∧ lib.NewInstancer
            (w.calls ++ connectCall (loggerOf l) zo
              :: pre.map (fun q => Call.NewInstancer c q (loggerOf l))) c p (loggerOf l)
            = Except.error e
        ∧ new = connectCall (loggerOf l) zo
            :: ((pre ++ [p]).map (fun q => Call.NewInstancer c q (loggerOf l))
              ++ [Call.Stop c])
        ∧ (NewEnvironment lib l zo eo w).2.calls = w.calls ++ new
        ∧ new.count (Call.Stop c) = 1
        ∧ (∀ x ∈ new, ∀ c1, x = Call.Stop c1 → c1 = c)
        ∧ ∀ x ∈ new, ∀ c1 s lg, x ≠ Call.NewRegistrar c1 s lg := by
  rw [NewEnvironment_instancer_error lib l zo eo w c e hne hc hi]
  refine ⟨rfl, ?_⟩
  obtain ⟨pre, p, h1, h2, h3, _⟩ := newInstancersLoop_error lib (loggerOf l) c zo.watches
    Instancers.empty (w.call (connectCall (loggerOf l) zo)) e hi
  rw [distinctPaths_filter_empty] at h1
  refine ⟨pre, p, _, h1, ?_, rfl, ?_, ?_, ?_, ?_⟩
  · simpa [World.call] using h3
  · show _ ++ [Call.Stop c] = _
    have h2b : (newInstancers lib (loggerOf l) c zo
        (w.call (connectCall (loggerOf l) zo))).2.calls
        = (w.call (connectCall (loggerOf l) zo)).calls
          ++ (pre ++ [p]).map (fun q => Call.NewInstancer c q (loggerOf l)) := h2
    rw [h2b]
    simp [World.call]
  · simp [connectCall, List.count_cons, List.count_append, List.count_eq_zero]
  · intro x hx c1 hxe
    subst hxe
    simp [connectCall] at hx
    exact hx
  · intro x hx c1 s lg hxe
    subst hxe
    simp [connectCall] at hx

/-- C5, at a library in which the watch on `/svc/b` cannot be created. -/
theorem C5_NewEnvironment_instancer_failure_witness :
    (NewEnvironment brokenWatchLib none exampleOptions [] emptyWorld).1
        = (none, some "no node")
    ∧ (NewEnvironment brokenWatchLib none exampleOptions [] emptyWorld).2.calls
        = [connectCall DefaultLogger exampleOptions,
            Call.NewInstancer ⟨1⟩ "/svc/a" DefaultLogger,
            Call.NewInstancer ⟨1⟩ "/svc/b" DefaultLogger,
            Call.Stop ⟨1⟩] :=
  ⟨(C5_NewEnvironment_instancer_failure brokenWatchLib none exampleOptions [] emptyWorld
      ⟨1⟩ "no node" (by decide) rfl (by decide)).1, by decide⟩

end zk

namespace wrp

/-! ### Steps of the encoder pool -/

theorem encoder_factory_frame (ep : EncoderPool) :
    ep.factory.2.pool = ep.pool ∧ ep.factory.2.capacity = ep.capacity := ⟨rfl, rfl⟩

theorem encoder_Get_capacity (ep : EncoderPool) : ep.Get.2.capacity = ep.capacity := by
  unfold EncoderPool.Get
  split <;> rfl

theorem encoder_Get_length_le (ep : EncoderPool) :
    ep.Get.2.pool.length ≤ ep.pool.length := by
  unfold EncoderPool.Get
  split
  · rename_i e rest h
    simp [h]
  · rename_i h
    simp [EncoderPool.factory, h]

theorem encoder_Put_capacity (ep : EncoderPool) (e : Encoder) :
    (ep.Put e).capacity = ep.capacity := by
  unfold EncoderPool.Put
  split <;> rfl

theorem encoder_Put_length_le (ep : EncoderPool) (e : Encoder)
    (h : ep.pool.length ≤ ep.capacity) : (ep.Put e).pool.length ≤ (ep.Put e).capacity := by
  unfold EncoderPool.Put
  split
  · rename_i hlt
    simp only [List.length_append, List.length_singleton]
    omega
  · exact h

theorem encoder_step_capacity (codec : Codec) (ep : EncoderPool) (op : EncoderOp) :
    (ep.step codec op).capacity = ep.capacity := by
  cases op with
  | Get => exact encoder_Get_capacity ep
  | Put e => exact encoder_Put_capacity ep e
  | Encode dst m =>
    simp only [EncoderPool.step, EncoderPool.Encode]
    rw [encoder_Put_capacity, encoder_Get_capacity]
  | EncodeBytes m =>
    simp only [EncoderPool.step, EncoderPool.EncodeBytes]
    rw [encoder_Put_capacity, encoder_Get_capacity]

theorem encoder_step_length_le (codec : Codec) (ep : EncoderPool) (op : EncoderOp)
    (h : ep.pool.length ≤ ep.capacity) :
    (ep.step codec op).pool.length ≤ (ep.step codec op).capacity := by
  have hget : ep.Get.2.pool.length ≤ ep.Get.2.capacity := by
    rw [encoder_Get_capacity]
    exact (encoder_Get_length_le ep).trans h
  cases op with
  | Get => exact hget
  | Put e => exact encoder_Put_length_le ep e h
  | Encode dst m => exact encoder_Put_length_le _ _ hget
  | EncodeBytes m => exact encoder_Put_length_le _ _ hget

theorem encoder_run_invariant (codec : Codec) (ops : List EncoderOp) (ep : EncoderPool)
    (h : ep.pool.length ≤ ep.capacity) :
    (ep.run codec ops).pool.length ≤ (ep.run codec ops).capacity
      ∧ (ep.run codec ops).capacity = ep.capacity := by
  induction ops generalizing ep with
  | nil => exact ⟨h, rfl⟩
  | cons op ops ih =>
    have := ih (ep.step codec op) (encoder_step_length_le codec ep op h)
    simp only [EncoderPool.run, List.foldl_cons] at this ⊢
    exact ⟨this.1, this.2.trans (encoder_step_capacity codec ep op)⟩

theorem encoder_fill_invariant (n : Nat) (ep : EncoderPool)
    (h : ep.pool.length ≤ ep.capacity) :
    (EncoderPool.fill n ep).pool.length ≤ (EncoderPool.fill n ep).capacity
      ∧ (EncoderPool.fill n ep).capacity = ep.capacity := by
  induction n generalizing ep with
  | zero => exact ⟨h, rfl⟩
  | succ n ih =>
    have h1 : (ep.factory.2.Put ep.factory.1).pool.length
        ≤ (ep.factory.2.Put ep.factory.1).capacity :=
      encoder_Put_length_le _ _ h
    have := ih _ h1
    simp only [EncoderPool.fill]
    exact ⟨this.1, this.2.trans (encoder_Put_capacity _ _)⟩

theorem NewEncoderPool_invariant (poolSize initialBufferSize : Nat) (f : Format) :
    (NewEncoderPool poolSize initialBufferSize f).pool.length
        ≤ (NewEncoderPool poolSize initialBufferSize f).capacity
      ∧ (NewEncoderPool poolSize initialBufferSize f).capacity = poolSize :=
  encoder_fill_invariant poolSize ⟨poolSize, [], f, initialBufferSize, 0⟩
    (Nat.zero_le _)

/-! ### Steps of the decoder pool -/

theorem decoder_Get_capacity (dp : DecoderPool) : dp.Get.2.capacity = dp.capacity := by
  unfold DecoderPool.Get
  split <;> rfl

theorem decoder_Get_length_le (dp : DecoderPool) :
    dp.Get.2.pool.length ≤ dp.pool.length := by
  unfold DecoderPool.Get
  split
  · rename_i d rest h
    simp [h]
  · rename_i h
    simp [DecoderPool.factory, h]

theorem decoder_Put_capacity (dp : DecoderPool) (d : Decoder) :
    (dp.Put d).capacity = dp.capacity := by
  unfold DecoderPool.Put
  split <;> rfl

theorem decoder_Put_length_le (dp : DecoderPool) (d : Decoder)
    (h : dp.pool.length ≤ dp.capacity) : (dp.Put d).pool.length ≤ (dp.Put d).capacity := by
  unfold DecoderPool.Put
  split
  · rename_i hlt
    simp only [List.length_append, List.length_singleton]
    omega
  · exact h

theorem decoder_step_capacity (codec : Codec) (dp : DecoderPool) (op : DecoderOp) :
    (dp.step codec op).capacity = dp.capacity := by
  cases op <;>
    simp only [DecoderPool.step, DecoderPool.Decode, DecoderPool.DecodeBytes,
      DecoderPool.DecodeMessage, DecoderPool.DecodeMessageBytes, decoder_Put_capacity,
      decoder_Get_capacity]

theorem decoder_step_length_le (codec : Codec) (dp : DecoderPool) (op : DecoderOp)
    (h : dp.pool.length ≤ dp.capacity) :
    (dp.step codec op).pool.length ≤ (dp.step codec op).capacity := by
  have hget : dp.Get.2.pool.length ≤ dp.Get.2.capacity := by
    rw [decoder_Get_capacity]
    exact (decoder_Get_length_le dp).trans h
  cases op with
  | Get => exact hget
  | Put d => exact decoder_Put_length_le dp d h
  | Decode t s => exact decoder_Put_length_le _ _ hget
  | DecodeBytes t s => exact decoder_Put_length_le _ _ hget
  | DecodeMessage s => exact decoder_Put_length_le _ _ hget
  | DecodeMessageBytes s => exact decoder_Put_length_le _ _ hget

theorem decoder_run_invariant (codec : Codec) (ops : List DecoderOp) (dp : DecoderPool)
    (h : dp.pool.length ≤ dp.capacity) :
    (dp.run codec ops).pool.length ≤ (dp.run codec ops).capacity
      ∧ (dp.run codec ops).capacity = dp.capacity := by
  induction ops generalizing dp with
  | nil => exact ⟨h, rfl⟩
  | cons op ops ih =>
    have := ih (dp.step codec op) (decoder_step_length_le codec dp op h)
    simp only [DecoderPool.run, List.foldl_cons] at this ⊢
    exact ⟨this.1, this.2.trans (decoder_step_capacity codec dp op)⟩

theorem decoder_fill_invariant (n : Nat) (dp : DecoderPool)
    (h : dp.pool.length ≤ dp.capacity) :
    (DecoderPool.fill n dp).pool.length ≤ (DecoderPool.fill n dp).capacity
      ∧ (DecoderPool.fill n dp).capacity = dp.capacity := by
  induction n generalizing dp with
  | zero => exact ⟨h, rfl⟩
  | succ n ih =>
    have h1 : (dp.factory.2.Put dp.factory.1).pool.length
        ≤ (dp.factory.2.Put dp.factory.1).capacity :=
      decoder_Put_length_le _ _ h
    have := ih _ h1
    simp only [DecoderPool.fill]
    exact ⟨this.1, this.2.trans (decoder_Put_capacity _ _)⟩

theorem NewDecoderPool_invariant (poolSize : Nat) (f : Format) :
    (NewDecoderPool poolSize f).pool.length ≤ (NewDecoderPool poolSize f).capacity
      ∧ (NewDecoderPool poolSize f).capacity = poolSize :=
  decoder_fill_invariant poolSize ⟨poolSize, [], f, 0⟩ (Nat.zero_le _)

/-! ### The acquire/release bracket -/

theorem encoder_bracket_length (ep : EncoderPool) (h : ep.pool.length ≤ ep.capacity) :
    (ep.Get.2.Put ep.Get.1).pool.length
      = if ep.pool.length = 0 then min 1 ep.capacity else ep.pool.length := by
  obtain ⟨cap, pool, fmt, b, a⟩ := ep
  cases pool with
  | nil =>
    by_cases hc : 0 < cap
    · have : min 1 cap = 1 := by omega
      simp [EncoderPool.Get, EncoderPool.Put, EncoderPool.factory, hc, this]
    · have : min 1 cap = 0 := by omega
      simp [EncoderPool.Get, EncoderPool.Put, EncoderPool.factory, hc, this]
  | cons e rest =>
    have hlt : rest.length < cap := by
      simp only [List.length_cons] at h
      omega
    simp [EncoderPool.Get, EncoderPool.Put, hlt]

theorem decoder_bracket_length (dp : DecoderPool) (h : dp.pool.length ≤ dp.capacity) :
    (dp.Get.2.Put dp.Get.1).pool.length
      = if dp.pool.length = 0 then min 1 dp.capacity else dp.pool.length := by
  obtain ⟨cap, pool, fmt, a⟩ := dp
  cases pool with
  | nil =>
    by_cases hc : 0 < cap
    · have : min 1 cap = 1 := by omega
      simp [DecoderPool.Get, DecoderPool.Put, DecoderPool.factory, hc, this]
    · have : min 1 cap = 0 := by omega
      simp [DecoderPool.Get, DecoderPool.Put, DecoderPool.factory, hc, this]
  | cons d rest =>
    have hlt : rest.length < cap := by
      simp only [List.length_cons] at h
      omega
    simp [DecoderPool.Get, DecoderPool.Put, hlt]

/-- Pools run from construction stay within the capacity they were constructed with. -/
theorem zero_capacity_run_invariant (codec : Codec) (initialBufferSize : Nat)
    (f : Format) (eops : List EncoderOp) (dops : List DecoderOp) :
    (0 ≤ ((NewEncoderPool 0 initialBufferSize f).run codec eops).pool.length
      ∧ ((NewEncoderPool 0 initialBufferSize f).run codec eops).pool.length ≤ 0
      ∧ ((NewEncoderPool 0 initialBufferSize f).run codec eops).capacity = 0)
    ∧ (0 ≤ ((NewDecoderPool 0 f).run codec dops).pool.length
      ∧ ((NewDecoderPool 0 f).run codec dops).pool.length ≤ 0
      ∧ ((NewDecoderPool 0 f).run codec dops).capacity = 0) := by
  obtain ⟨he1, he2⟩ := NewEncoderPool_invariant 0 initialBufferSize f
  obtain ⟨hd1, hd2⟩ := NewDecoderPool_invariant 0 f
  obtain ⟨hre1, hre2⟩ := encoder_run_invariant codec eops _ he1
  obtain ⟨hrd1, hrd2⟩ := decoder_run_invariant codec dops _ hd1
  rw [hre2, he2] at hre1
  rw [hrd2, hd2] at hrd1
  exact ⟨⟨Nat.zero_le _, hre1, hre2.trans he2⟩, ⟨Nat.zero_le _, hrd1, hrd2.trans hd2⟩⟩

/-! ### Claims about the codec pools -/

/-- C6: for every capacity and every finite sequence of Get, Put, Encode, EncodeBytes and
Decode, DecodeBytes, DecodeMessage, DecodeMessageBytes operations applied to a newly
constructed encoder or decoder pool, the number of idle instances held by the pool is
between 0 and the capacity the pool was constructed with. -/
theorem C6_pool_idle_within_capacity (codec : Codec) (poolSize initialBufferSize : Nat)
    (f : Format) (eops : List EncoderOp) (dops : List DecoderOp) :
    (0 ≤ ((NewEncoderPool poolSize initialBufferSize f).run codec eops).pool.length
      ∧ ((NewEncoderPool poolSize initialBufferSize f).run codec eops).pool.length ≤ poolSize
      ∧ ((NewEncoderPool poolSize initialBufferSize f).run codec eops).capacity = poolSize)
    ∧ (0 ≤ ((NewDecoderPool poolSize f).run codec dops).pool.length
      ∧ ((NewDecoderPool poolSize f).run codec dops).pool.length ≤ poolSize
      ∧ ((NewDecoderPool poolSize f).run codec dops).capacity = poolSize) := by
  obtain ⟨he1, he2⟩ := NewEncoderPool_invariant poolSize initialBufferSize f
  obtain ⟨hd1, hd2⟩ := NewDecoderPool_invariant poolSize f
  obtain ⟨hre1, hre2⟩ := encoder_run_invariant codec eops _ he1
  obtain ⟨hrd1, hrd2⟩ := decoder_run_invariant codec dops _ hd1
  rw [hre2, he2] at hre1
  rw [hrd2, hd2] at hrd1
  exact ⟨⟨Nat.zero_le _, hre1, hre2.trans he2⟩, ⟨Nat.zero_le _, hrd1, hrd2.trans hd2⟩⟩

/-- C7: Get is a total function that returns an instance for every pool state.  When the
pool holds an idle instance, Get returns the oldest one, the idle count decreases by exactly
one and nothing is constructed; when the pool holds none, Get returns the instance its
factory constructs and the idle count stays 0.  The same holds for the decoder pool. -/
theorem C7_Get_never_fails (ep : EncoderPool) (dp : DecoderPool) :
    ((∃ e ep1, ep.Get = (e, ep1))
      ∧ (ep.pool ≠ [] → ep.pool.head? = some ep.Get.1
          ∧ ep.Get.2.pool.length + 1 = ep.pool.length
          ∧ ep.Get.2.allocated = ep.allocated)
      ∧ (ep.pool = [] → ep.Get.1 = ⟨ep.allocated, ep.format, ep.initialBufferSize⟩
          ∧ ep.Get.2.pool.length = 0
          ∧ ep.Get.2.allocated = ep.allocated + 1))
    ∧ ((∃ d dp1, dp.Get = (d, dp1))
      ∧ (dp.pool ≠ [] → dp.pool.head? = some dp.Get.1
          ∧ dp.Get.2.pool.length + 1 = dp.pool.length
          ∧ dp.Get.2.allocated = dp.allocated)
      ∧ (dp.pool = [] → dp.Get.1 = ⟨dp.allocated, dp.format⟩
          ∧ dp.Get.2.pool.length = 0
          ∧ dp.Get.2.allocated = dp.allocated + 1)) := by
  refine ⟨⟨⟨ep.Get.1, ep.Get.2, rfl⟩, ?_, ?_⟩, ⟨⟨dp.Get.1, dp.Get.2, rfl⟩, ?_, ?_⟩⟩
  · intro h
    obtain ⟨cap, pool, fmt, b, a⟩ := ep
    cases pool with
    | nil => exact absurd rfl h
    | cons e rest => simp [EncoderPool.Get]
  · intro h
    obtain ⟨cap, pool, fmt, b, a⟩ := ep
    simp only at h
    subst h
    simp [EncoderPool.Get, EncoderPool.factory]
  · intro h
    obtain ⟨cap, pool, fmt, a⟩ := dp
    cases pool with
    | nil => exact absurd rfl h
    | cons d rest => simp [DecoderPool.Get]
  · intro h
    obtain ⟨cap, pool, fmt, a⟩ := dp
    simp only at h
    subst h
    simp [DecoderPool.Get, DecoderPool.factory]

/-- C7, at a full encoder pool of capacity 2 and at the same pool drained by two Gets. -/
theorem C7_Get_never_fails_witness :
    ((NewEncoderPool 2 10 Format.JSON).pool.head?
        = some (NewEncoderPool 2 10 Format.JSON).Get.1
      ∧ (NewEncoderPool 2 10 Format.JSON).Get.2.pool.length + 1
        = (NewEncoderPool 2 10 Format.JSON).pool.length
      ∧ (NewEncoderPool 2 10 Format.JSON).Get.2.allocated
        = (NewEncoderPool 2 10 Format.JSON).allocated)
    ∧ ((NewEncoderPool 2 10 Format.JSON).Get.2.Get.2.Get.1 = ⟨2, Format.JSON, 10⟩
      ∧ (NewEncoderPool 2 10 Format.JSON).Get.2.Get.2.Get.2.pool.length = 0
      ∧ (NewEncoderPool 2 10 Format.JSON).Get.2.Get.2.Get.2.allocated = 2 + 1)
    ∧ ((NewDecoderPool 2 Format.JSON).pool.head? = some (NewDecoderPool 2 Format.JSON).Get.1
      ∧ (NewDecoderPool 2 Format.JSON).Get.2.pool.length + 1
        = (NewDecoderPool 2 Format.JSON).pool.length
      ∧ (NewDecoderPool 2 Format.JSON).Get.2.allocated
        = (NewDecoderPool 2 Format.JSON).allocated)
    ∧ ((NewDecoderPool 0 Format.JSON).Get.1 = ⟨0, Format.JSON⟩
      ∧ (NewDecoderPool 0 Format.JSON).Get.2.pool.length = 0
      ∧ (NewDecoderPool 0 Format.JSON).Get.2.allocated = 0 + 1) :=
  ⟨(C7_Get_never_fails (NewEncoderPool 2 10 Format.JSON)
      (NewDecoderPool 2 Format.JSON)).1.2.1 (by decide),
    (C7_Get_never_fails (NewEncoderPool 2 10 Format.JSON).Get.2.Get.2
      (NewDecoderPool 2 Format.JSON)).1.2.2 (by decide),
    (C7_Get_never_fails (NewEncoderPool 2 10 Format.JSON)
      (NewDecoderPool 2 Format.JSON)).2.2.1 (by decide),
    (C7_Get_never_fails (NewEncoderPool 2 10 Format.JSON)
      (NewDecoderPool 0 Format.JSON)).2.2.2 (by decide)⟩

/-- C8: Put returns the pool and nothing else, so it raises no error.  If the idle count is
below capacity the instance is appended and the idle count increases by exactly one; if the
idle count equals capacity the instance is discarded and the pool state is unchanged, so a
further Put on the full pool changes nothing either.  The same holds for the decoder
pool. -/
theorem C8_Put_bounded_and_silent (ep : EncoderPool) (e e2 : Encoder) (dp : DecoderPool)
    (d d2 : Decoder) :
    ((ep.pool.length < ep.capacity →
        (ep.Put e).pool = ep.pool ++ [e] ∧ (ep.Put e).pool.length = ep.pool.length + 1)
      ∧ (ep.pool.length = ep.capacity →
        ep.Put e = ep ∧ (ep.Put e).pool.length = ep.pool.length
          ∧ (ep.Put e).Put e2 = ep.Put e))
    ∧ ((dp.pool.length < dp.capacity →
        (dp.Put d).pool = dp.pool ++ [d] ∧ (dp.Put d).pool.length = dp.pool.length + 1)
      ∧ (dp.pool.length = dp.capacity →
        dp.Put d = dp ∧ (dp.Put d).pool.length = dp.pool.length
          ∧ (dp.Put d).Put d2 = dp.Put d)) := by
  refine ⟨⟨?_, ?_⟩, ⟨?_, ?_⟩⟩
  · intro h
    simp [EncoderPool.Put, h]
  · intro h
    have h1 : ∀ x, ep.Put x = ep := by
      intro x
      simp [EncoderPool.Put, h]
    rw [h1 e, h1 e2]
    exact ⟨rfl, rfl, rfl⟩
  · intro h
    simp [DecoderPool.Put, h]
  · intro h
    have h1 : ∀ x, dp.Put x = dp := by
      intro x
      simp [DecoderPool.Put, h]
    rw [h1 d, h1 d2]
    exact ⟨rfl, rfl, rfl⟩

/-- C8, at pools of capacity 2: a Put after one Get is accepted, a Put on the full pool is
discarded. -/
theorem C8_Put_bounded_and_silent_witness :
    ((NewEncoderPool 2 10 Format.Msgpack).Get.2.Put ⟨7, Format.Msgpack, 10⟩).pool.length
        = (NewEncoderPool 2 10 Format.Msgpack).Get.2.pool.length + 1
    ∧ (NewEncoderPool 2 10 Format.Msgpack).Put ⟨7, Format.Msgpack, 10⟩
        = NewEncoderPool 2 10 Format.Msgpack
    ∧ ((NewDecoderPool 2 Format.Msgpack).Get.2.Put ⟨7, Format.Msgpack⟩).pool.length
        = (NewDecoderPool 2 Format.Msgpack).Get.2.pool.length + 1
    ∧ (NewDecoderPool 2 Format.Msgpack).Put ⟨7, Format.Msgpack⟩
        = NewDecoderPool 2 Format.Msgpack :=
  ⟨((C8_Put_bounded_and_silent (NewEncoderPool 2 10 Format.Msgpack).Get.2
      ⟨7, Format.Msgpack, 10⟩ ⟨8, Format.Msgpack, 10⟩ (NewDecoderPool 2 Format.Msgpack)
      ⟨7, Format.Msgpack⟩ ⟨8, Format.Msgpack⟩).1.1 (by decide)).2,
    ((C8_Put_bounded_and_silent (NewEncoderPool 2 10 Format.Msgpack)
      ⟨7, Format.Msgpack, 10⟩ ⟨8, Format.Msgpack, 10⟩ (NewDecoderPool 2 Format.Msgpack)
      ⟨7, Format.Msgpack⟩ ⟨8, Format.Msgpack⟩).1.2 (by decide)).1,
    ((C8_Put_bounded_and_silent (NewEncoderPool 2 10 Format.Msgpack)
      ⟨7, Format.Msgpack, 10⟩ ⟨8, Format.Msgpack, 10⟩ (NewDecoderPool 2 Format.Msgpack).Get.2
      ⟨7, Format.Msgpack⟩ ⟨8, Format.Msgpack⟩).2.1 (by decide)).2,
    ((C8_Put_bounded_and_silent (NewEncoderPool 2 10 Format.Msgpack)
      ⟨7, Format.Msgpack, 10⟩ ⟨8, Format.Msgpack, 10⟩ (NewDecoderPool 2 Format.Msgpack)
      ⟨7, Format.Msgpack⟩ ⟨8, Format.Msgpack⟩).2.2 (by decide)).1⟩

/-- C9 as stated fails: an encoder pool of capacity 1 drained by one Get holds 0 idle
instances, and after Encode it holds 1; likewise a drained decoder pool after Decode. -/
theorem C9_bracket_counterexample :
    ((NewEncoderPool 1 0 Format.Msgpack).Get.2.pool.length = 0
      ∧ ((NewEncoderPool 1 0 Format.Msgpack).Get.2.Encode exampleCodec []
          testMessage).2.pool.length = 1)
    ∧ ((NewDecoderPool 1 Format.Msgpack).Get.2.pool.length = 0
      ∧ ((NewDecoderPool 1 Format.Msgpack).Get.2.Decode exampleCodec Message.zero
          []).2.pool.length = 1) := by
  decide

/-- C9, amended: for every pool state whose idle count n is within the capacity and every
message or input, Encode, EncodeBytes, Decode, DecodeBytes, DecodeMessage and
DecodeMessageBytes leave the idle count equal to n when n is at least 1; when n is 0
the instance Get constructed is released into the pool, so the idle count becomes 1 if the
capacity is at least 1 and stays 0 if the capacity is 0.  This holds whether the codec call
succeeded or failed, and the error returned is exactly the codec's error for the acquired
instance's format. -/
theorem C9_bracket_amended (codec : Codec) (ep : EncoderPool) (dp : DecoderPool)
    (dst : List UInt8) (m target : Message) (source : List UInt8)
    (hep : ep.pool.length ≤ ep.capacity) (hdp : dp.pool.length ≤ dp.capacity) :
    ((ep.Encode codec dst m).2.pool.length
        = (if ep.pool.length = 0 then min 1 ep.capacity else ep.pool.length)
      ∧ (ep.Encode codec dst m).1.1 = (codec.encode ep.Get.1.format m).2)
    ∧ ((ep.EncodeBytes codec m).2.pool.length
        = (if ep.pool.length = 0 then min 1 ep.capacity else ep.pool.length)
      ∧ (ep.EncodeBytes codec m).1.2 = (codec.encode ep.Get.1.format m).2)
    ∧ ((dp.Decode codec target source).2.pool.length
        = (if dp.pool.length = 0 then min 1 dp.capacity else dp.pool.length)
      ∧ (dp.Decode codec target source).1.2
        = (codec.decode dp.Get.1.format target source).2)
    ∧ ((dp.DecodeBytes codec target source).2.pool.length
        = (if dp.pool.length = 0 then min 1 dp.capacity else dp.pool.length)
      ∧ (dp.DecodeBytes codec target source).1.2
        = (codec.decode dp.Get.1.format target source).2)
    ∧ ((dp.DecodeMessage codec source).2.pool.length
        = (if dp.pool.length = 0 then min 1 dp.capacity else dp.pool.length)
      ∧ (dp.DecodeMessage codec source).1.2
        = (codec.decode dp.Get.1.format Message.zero source).2)
    ∧ ((dp.DecodeMessageBytes codec source).2.pool.length
        = (if dp.pool.length = 0 then min 1 dp.capacity else dp.pool.length)
      ∧ (dp.DecodeMessageBytes codec source).1.2
        = (codec.decode dp.Get.1.format Message.zero source).2) :=
  ⟨⟨encoder_bracket_length ep hep, rfl⟩, ⟨encoder_bracket_length ep hep, rfl⟩,
    ⟨decoder_bracket_length dp hdp, rfl⟩, ⟨decoder_bracket_length dp hdp, rfl⟩,
    ⟨decoder_bracket_length dp hdp, rfl⟩, ⟨decoder_bracket_length dp hdp, rfl⟩⟩

/-- C9 amended, at full pools of capacity 10 and a codec whose every call fails: the idle
count is 10 before and after, and the codec's error is returned. -/
theorem C9_bracket_amended_witness :
    ((NewEncoderPool 10 10 Format.JSON).Encode failingCodec [] testMessage).2.pool.length
        = 10
    ∧ ((NewEncoderPool 10 10 Format.JSON).Encode failingCodec [] testMessage).1.1
        = some "encode failed"
    ∧ ((NewDecoderPool 10 Format.JSON).DecodeMessage failingCodec []).2.pool.length = 10
    ∧ ((NewDecoderPool 10 Format.JSON).DecodeMessage failingCodec []).1.2
        = some "decode failed" :=
  have h := C9_bracket_amended failingCodec (NewEncoderPool 10 10 Format.JSON)
    (NewDecoderPool 10 Format.JSON) [] testMessage Message.zero [] (by decide) (by decide)
  ⟨h.1.1.trans (by decide), h.1.2.trans (by decide), h.2.2.2.2.1.1.trans (by decide),
    h.2.2.2.2.1.2.trans (by decide)⟩

/-- C10: for a pool constructed with capacity 0, of either format, the idle count is 0
after construction and after every finite sequence of operations; in every such state Get
returns the instance its factory constructs and counts one more allocation, and every Put
leaves the pool state unchanged.  The same holds for the decoder pool. -/
theorem C10_zero_capacity_pool (codec : Codec) (initialBufferSize : Nat) (f : Format)
    (eops : List EncoderOp) (dops : List DecoderOp) :
    ((NewEncoderPool 0 initialBufferSize f).pool.length = 0
      ∧ ((NewEncoderPool 0 initialBufferSize f).run codec eops).pool.length = 0
      ∧ ((NewEncoderPool 0 initialBufferSize f).run codec eops).Get
          = ((NewEncoderPool 0 initialBufferSize f).run codec eops).factory
      ∧ ((NewEncoderPool 0 initialBufferSize f).run codec eops).Get.2.allocated
          = ((NewEncoderPool 0 initialBufferSize f).run codec eops).allocated + 1
      ∧ ∀ e, ((NewEncoderPool 0 initialBufferSize f).run codec eops).Put e
          = (NewEncoderPool 0 initialBufferSize f).run codec eops)
    ∧ ((NewDecoderPool 0 f).pool.length = 0
      ∧ ((NewDecoderPool 0 f).run codec dops).pool.length = 0
      ∧ ((NewDecoderPool 0 f).run codec dops).Get = ((NewDecoderPool 0 f).run codec dops).factory
      ∧ ((NewDecoderPool 0 f).run codec dops).Get.2.allocated
          = ((NewDecoderPool 0 f).run codec dops).allocated + 1
      ∧ ∀ d, ((NewDecoderPool 0 f).run codec dops).Put d
          = (NewDecoderPool 0 f).run codec dops) := by
  obtain ⟨⟨_, he1, he2⟩, ⟨_, hd1, hd2⟩⟩ :=
    zero_capacity_run_invariant codec initialBufferSize f eops dops
  have hpe : ((NewEncoderPool 0 initialBufferSize f).run codec eops).pool = [] :=
    List.length_eq_zero.1 (Nat.le_zero.1 he1)
  have hpd : ((NewDecoderPool 0 f).run codec dops).pool = [] :=
    List.length_eq_zero.1 (Nat.le_zero.1 hd1)
  refine ⟨⟨rfl, by rw [hpe]; rfl, ?_, ?_, ?_⟩, ⟨rfl, by rw [hpd]; rfl, ?_, ?_, ?_⟩⟩
  · simp [EncoderPool.Get, hpe]
  · simp [EncoderPool.Get, hpe, EncoderPool.factory]
  · intro e
    simp [EncoderPool.Put, hpe, he2]
  · simp [DecoderPool.Get, hpd]
  · simp [DecoderPool.Get, hpd, DecoderPool.factory]
  · intro d
    simp [DecoderPool.Put, hpd, hd2]

end wrp

namespace zk

/-! ### The service record of a registration -/

/-- The UTF-8 bytes of a string of ASCII characters are the codes of its characters. -/
theorem toUTF8_ascii (cs : List Char) (h : ∀ ch ∈ cs, ch.val ≤ 0x7f) :
    (String.mk cs).toUTF8.data.toList = cs.map (fun ch => ch.val.toUInt8) := by
  induction cs with
  | nil => rfl
  | cons ch cs ih =>
    have hc : ch.val ≤ 0x7f := h ch (List.mem_cons_self _ _)
    have ih1 := ih (fun x hx => h x (List.mem_cons_of_mem _ hx))
    simp only [String.toUTF8, List.flatMap_cons, List.map_cons] at ih1 ⊢
    rw [ih1]
    simp [String.utf8EncodeChar, hc]

/-- C13: for every Registration r, newService is a function of r alone (it takes no world
and makes no call) that returns the endpoint identity `scheme://address:port`: r's scheme,
the text `://`, r's address, a colon and r's port in decimal digits.  With it comes a
service record whose Path is r's path, whose Name is r's name and whose Data is exactly the
bytes of that same identity string: the UTF-8 encoding of its characters in order, as many
bytes as the string's UTF-8 size, and one byte per character, the character's code, when
the identity is ASCII.  The identity and the Data depend on the scheme, address and port
only. -/
theorem C13_newService_identity_and_record (r : Registration) :
    (newService r).1 = FormatInstance r.scheme r.address r.port
    ∧ (newService r).1
        = r.Scheme ++ "://" ++ r.Address ++ ":" ++ (Nat.toDigits 10 r.Port).asString
    ∧ (newService r).2.Path = r.Path
    ∧ (newService r).2.Name = r.Name
    ∧ (newService r).2.Data = (newService r).1.data.flatMap String.utf8EncodeChar
    ∧ (newService r).2.Data
        = (r.Scheme ++ "://" ++ r.Address ++ ":"
            ++ (Nat.toDigits 10 r.Port).asString).toUTF8.data.toList
    ∧ (newService r).2.Data.length = (newService r).1.utf8ByteSize
    ∧ ((∀ ch ∈ (newService r).1.data, ch.val ≤ 0x7f) →
        (newService r).2.Data = (newService r).1.data.map (fun ch => ch.val.toUInt8))
    ∧ ∀ r2 : Registration, r2.Scheme = r.Scheme → r2.Address = r.Address →
        r2.Port = r.Port →
        (newService r2).1 = (newService r).1
        ∧ (newService r2).2.Data = (newService r).2.Data := by
  refine ⟨rfl, rfl, rfl, rfl, rfl, rfl, ?_, ?_, ?_⟩
  · have := String.size_toUTF8 (newService r).1
    exact this
  · intro h
    exact toUTF8_ascii (newService r).1.data h
  · intro r2 h1 h2 h3
    simp [newService, FormatInstance, Registration.scheme, Registration.address,
      Registration.port, h1, h2, h3]

/-- C13, at the registration `api` of `http://10.0.0.1:8080`: the identity, and the record
with its twenty bytes. -/
theorem C13_newService_identity_and_record_example :
    (newService ⟨"api", "/reg/api", "10.0.0.1", 8080, "http"⟩).1 = "http://10.0.0.1:8080"
    ∧ (newService ⟨"api", "/reg/api", "10.0.0.1", 8080, "http"⟩).2
        = ⟨"/reg/api", "api",
            [104, 116, 116, 112, 58, 47, 47, 49, 48, 46, 48, 46, 48, 46, 49, 58, 56, 48, 56,
              48]⟩
    ∧ (newService ⟨"api", "/reg/api", "10.0.0.1", 8080, "http"⟩).2.Data
        = (newService ⟨"api", "/reg/api", "10.0.0.1", 8080, "http"⟩).1.data.map
            (fun ch => ch.val.toUInt8) :=
  ⟨(C13_newService_identity_and_record
      ⟨"api", "/reg/api", "10.0.0.1", 8080, "http"⟩).2.1.trans (by decide), by decide,
    (C13_newService_identity_and_record
      ⟨"api", "/reg/api", "10.0.0.1", 8080, "http"⟩).2.2.2.2.2.2.2.1 (by decide)⟩

/-! ### The environment on the success path -/

/-- The environment assembled from the caller's options followed by the builder's three. -/
theorem serviceNewEnvironment_append (eo : List ServiceOption) (r : Registrars)
    (i : Instancers) (f : Closer) :
    serviceNewEnvironment (eo ++ [ServiceOption.WithRegistrar r,
        ServiceOption.WithInstancers i, ServiceOption.WithCloser f])
      = ⟨r, i, f, (serviceNewEnvironment eo).others⟩ := by
  simp [serviceNewEnvironment, List.foldl_append, ServiceOption.apply]

/-- C14: on the success path (the client connects and newInstancers returns no error)
NewEnvironment returns a nil error and an environment, and none of the calls of the build
is a Stop; the close hook of the environment stops that same client once per invocation and
returns a nil error, so that invoking it twice stops the client twice. -/
theorem C14_NewEnvironment_success_and_close (lib : Gokitzk) (l : Option Logger)
    (zo : Options) (eo : List ServiceOption) (w : World) (c : Client)
    (hne : ¬ (zo.Watches = [] ∧ zo.Registrations = []))
    (hc : lib.clientFactory w.calls zo.servers (loggerOf l)
      [ClientOption.ConnectTimeout zo.connectTimeout,
        ClientOption.SessionTimeout zo.sessionTimeout] = Except.ok c)
    (hi : (newInstancers lib (loggerOf l) c zo (w.call (connectCall (loggerOf l) zo))).1.2
      = none) :
    (NewEnvironment lib l zo eo w).1.2 = none
    ∧ (∃ env : Environment,
        (NewEnvironment lib l zo eo w).1.1 = some env
        ∧ env.closer = stopCloser c
        ∧ (∀ w1 : World, env.closer w1 = (none, w1.call (Call.Stop c)))
        ∧ (∀ w1 : World, (env.closer w1).2.calls = w1.calls ++ [Call.Stop c])
        ∧ (∀ w1 : World, (env.closer (env.closer w1).2).1 = none
            ∧ (env.closer (env.closer w1).2).2.calls
              = w1.calls ++ [Call.Stop c, Call.Stop c]))
    ∧ ∃ new : List Call,
        (NewEnvironment lib l zo eo w).2.calls = w.calls ++ new
        ∧ ∀ x ∈ new, ∀ c1, x ≠ Call.Stop c1 := by
  rw [NewEnvironment_success lib l zo eo w c hne hc hi]
  refine ⟨rfl, ⟨_, rfl, ?_, ?_, ?_, ?_⟩, ?_⟩
  · rw [serviceNewEnvironment_append]
  · intro w1
    rw [serviceNewEnvironment_append]
    rfl
  · intro w1
    rw [serviceNewEnvironment_append]
    rfl
  · intro w1
    rw [serviceNewEnvironment_append]
    simp [stopCloser, World.call]
  · obtain ⟨att, _, hcalls, _⟩ :=
      newInstancers_calls lib (loggerOf l) c zo (w.call (connectCall (loggerOf l) zo))
    obtain ⟨_, hr, _⟩ := newRegistrars_eq (loggerOf l) c zo
      (newInstancers lib (loggerOf l) c zo (w.call (connectCall (loggerOf l) zo))).2
    refine ⟨connectCall (loggerOf l) zo
      :: (att.map (fun p => Call.NewInstancer c p (loggerOf l))
        ++ (keepFirstBy endpointOf zo.registrations).map
            (fun reg => Call.NewRegistrar c (newService reg).2
              ((loggerOf l).With "endpoint" (newService reg).1))), ?_, ?_⟩
    · show (newRegistrars _ _ _ _).2.calls = _
      rw [hr, hcalls]
      simp [World.call]
    · intro x hx c1 hxe
      subst hxe
      simp [connectCall] at hx

/-- C14, at a library in which every call succeeds: the build makes no Stop, and closing
the environment twice from the world the build leaves stops client 1 twice. -/
theorem C14_NewEnvironment_success_and_close_witness :
    (NewEnvironment exampleLib none exampleOptions [] emptyWorld).1.2 = none
    ∧ (∃ env : Environment,
        (NewEnvironment exampleLib none exampleOptions [] emptyWorld).1.1 = some env
        ∧ env.closer = stopCloser ⟨1⟩
        ∧ (∀ w1 : World, env.closer w1 = (none, w1.call (Call.Stop ⟨1⟩)))
        ∧ (∀ w1 : World, (env.closer w1).2.calls = w1.calls ++ [Call.Stop ⟨1⟩])
        ∧ (∀ w1 : World, (env.closer (env.closer w1).2).1 = none
            ∧ (env.closer (env.closer w1).2).2.calls
              = w1.calls ++ [Call.Stop ⟨1⟩, Call.Stop ⟨1⟩]))
    ∧ ∃ new : List Call,
        (NewEnvironment exampleLib none exampleOptions [] emptyWorld).2.calls
          = emptyWorld.calls ++ new
        ∧ ∀ x ∈ new, ∀ c1, x ≠ Call.Stop c1 :=
  C14_NewEnvironment_success_and_close exampleLib none exampleOptions [] emptyWorld ⟨1⟩
    (by decide) rfl (by decide)

/-! ### Deduplication keys on the endpoint identity -/

theorem Logger.With_endpoint_inj (base : Logger) (a b : String)
    (h : base.With "endpoint" a = base.With "endpoint" b) : a = b := by
  simpa [Logger.With] using h

theorem endpointOf_eq_of_fields (r1 r2 : Registration) (hs : r2.scheme = r1.scheme)
    (ha : r2.address = r1.address) (hp : r2.port = r1.port) :
    endpointOf r2 = endpointOf r1 := by
  simp [endpointOf, newService, hs, ha, hp]

/-- The kept element with a given key is the first element of the list with that key. -/
theorem keepFirstBy_unique {α κ : Type} [DecidableEq κ] (key : α → κ) (xs : List α)
    (a b : α) (ha : a ∈ keepFirstBy key xs) (hb : b ∈ keepFirstBy key xs)
    (hk : key a = key b) : a = b := by
  have h1 := keepFirstBy_find key xs a ha
  have h2 := keepFirstBy_find key xs b hb
  rw [hk] at h1
  rw [h1] at h2
  exact Option.some.inj h2

/-- An element with no earlier element of the same key is kept. -/
theorem keepFirstBy_mem_of_first {α κ : Type} [DecidableEq κ] (key : α → κ)
    (pre rest : List α) (a : α) (hfirst : ∀ x ∈ pre, key x ≠ key a) :
    a ∈ keepFirstBy key (pre ++ a :: rest) := by
  have hmem : key a ∈ (keepFirstBy key (pre ++ a :: rest)).map key :=
    (mem_keepFirstBy_keys key _ _).2 (List.mem_map.2 ⟨a, by simp, rfl⟩)
  obtain ⟨k, hk, hka⟩ := List.mem_map.1 hmem
  have hfind := keepFirstBy_find key _ k hk
  rw [hka] at hfind
  have hfa : (pre ++ a :: rest).find? (fun z => decide (key z = key a)) = some a := by
    rw [List.find?_append]
    have : pre.find? (fun z => decide (key z = key a)) = none := by
      rw [List.find?_eq_none]
      intro x hx
      simpa using hfirst x hx
    rw [this]
    simp
  rw [hfa] at hfind
  cases hfind
  exact hk

/-- One element of the list before or at a listed element is kept and has its key. -/
theorem keepFirstBy_exists_before {α κ : Type} [DecidableEq κ] (key : α → κ)
    (pre rest : List α) (a : α) :
    ∃ a0 ∈ pre ++ [a], key a0 = key a ∧ a0 ∈ keepFirstBy key (pre ++ a :: rest) := by
  have hmem : key a ∈ (keepFirstBy key (pre ++ a :: rest)).map key :=
    (mem_keepFirstBy_keys key _ _).2 (List.mem_map.2 ⟨a, by simp, rfl⟩)
  obtain ⟨k, hk, hka⟩ := List.mem_map.1 hmem
  refine ⟨k, ?_, hka, hk⟩
  have hfind := keepFirstBy_find key _ k hk
  rw [hka] at hfind
  have hsplit : pre ++ a :: rest = (pre ++ [a]) ++ rest := by simp
  rw [hsplit, List.find?_append] at hfind
  cases hf : (pre ++ [a]).find? (fun z => decide (key z = key a)) with
  | none =>
    rw [List.find?_eq_none] at hf
    have := hf a (by simp)
    simp at this
  | some k0 =>
    rw [hf] at hfind
    simp at hfind
    subst hfind
    exact List.mem_of_find?_eq_some hf

/-- The registrars and calls of `newRegistrars`, through `registrarFor` and
`registrarCall`. -/
theorem newRegistrars_items_calls (base : Logger) (c : Client) (zo : Options) (w : World) :
    (newRegistrars base c zo w).1.items
        = (keepFirstBy endpointOf zo.registrations).map (registrarFor base c)
    ∧ (newRegistrars base c zo w).2.calls
        = w.calls ++ (keepFirstBy endpointOf zo.registrations).map (registrarCall base c) := by
  obtain ⟨h1, h2, _⟩ := newRegistrars_eq base c zo w
  exact ⟨h1, h2⟩

/-- C18 as stated fails: with the registrations `api`, `admin`, `api` of one endpoint, the
pair `admin` before the second `api` has the same scheme, address and port and a different
path and name, yet no registrar is created for the earlier one, `admin`, and the only
creation passes the path and name of the later one, `api`, to the client. -/
theorem C18_registrar_dedup_counterexample :
    shadowedOptions.registrations
        = [apiRegistration] ++ adminRegistration :: ([] ++ apiRegistration :: [])
    ∧ (apiRegistration.scheme = adminRegistration.scheme
      ∧ apiRegistration.address = adminRegistration.address
      ∧ apiRegistration.port = adminRegistration.port
      ∧ apiRegistration.path ≠ adminRegistration.path
      ∧ apiRegistration.name ≠ adminRegistration.name)
    ∧ registrarFor DefaultLogger ⟨1⟩ adminRegistration
        ∉ (newRegistrars DefaultLogger ⟨1⟩ shadowedOptions emptyWorld).1.items
    ∧ (newRegistrars DefaultLogger ⟨1⟩ shadowedOptions emptyWorld).1.items
        = [registrarFor DefaultLogger ⟨1⟩ apiRegistration]
    ∧ (newRegistrars DefaultLogger ⟨1⟩ shadowedOptions emptyWorld).2.calls
        = [Call.NewRegistrar ⟨1⟩
            ⟨"/reg/api", "api",
              [104, 116, 116, 112, 58, 47, 47, 49, 48, 46, 48, 46, 48, 46, 49, 58, 56, 48,
                56, 48]⟩
            (DefaultLogger.With "endpoint" "http://10.0.0.1:8080")] := by
  decide

/-- C18, amended: registrar deduplication keys on the endpoint identity only.  For every
pair of registrations r1 before r2 with the same scheme, address and port but a different
path or name, the two have the same endpoint identity, and newRegistrars creates exactly one
registrar for that identity, with exactly one creation, built from the first registration
with that identity, which is r1 or a registration before it; when no registration before r1
has that identity, the registrar is the one of r1, no registrar and no creation is made for
r2, and the service record passed to the client for that identity carries the path and name
of r1. -/
theorem C18_registrar_dedup_keys_on_endpoint_amended (base : Logger) (c : Client)
    (zo : Options) (w : World) (pre mid post : List Registration) (r1 r2 : Registration)
    (hregs : zo.registrations = pre ++ r1 :: (mid ++ r2 :: post))
    (hs : r2.scheme = r1.scheme) (ha : r2.address = r1.address) (hp : r2.port = r1.port)
    (hdiff : r2.path ≠ r1.path ∨ r2.name ≠ r1.name) :
    endpointOf r2 = endpointOf r1
    ∧ (∃ r0 ∈ pre ++ [r1], endpointOf r0 = endpointOf r1
        ∧ zo.registrations.find? (fun z => decide (endpointOf z = endpointOf r1)) = some r0
        ∧ registrarFor base c r0 ∈ (newRegistrars base c zo w).1.items
        ∧ (∀ x ∈ (newRegistrars base c zo w).1.items,
            x.endpoint = some (endpointOf r1) → x = registrarFor base c r0)
        ∧ ∀ s lg, Call.NewRegistrar c s lg
              ∈ (keepFirstBy endpointOf zo.registrations).map (registrarCall base c) →
            lg = base.With "endpoint" (endpointOf r1) → s = (newService r0).2)
    ∧ (newRegistrars base c zo w).2.calls
        = w.calls ++ (keepFirstBy endpointOf zo.registrations).map (registrarCall base c)
    ∧ ((∀ x ∈ pre, endpointOf x ≠ endpointOf r1) →
        registrarFor base c r1 ∈ (newRegistrars base c zo w).1.items
        ∧ registrarFor base c r2 ∉ (newRegistrars base c zo w).1.items
        ∧ registrarCall base c r1
            ∈ (keepFirstBy endpointOf zo.registrations).map (registrarCall base c)
        ∧ registrarCall base c r2
            ∉ (keepFirstBy endpointOf zo.registrations).map (registrarCall base c)
        ∧ ∀ s lg, Call.NewRegistrar c s lg
              ∈ (keepFirstBy endpointOf zo.registrations).map (registrarCall base c) →
            lg = base.With "endpoint" (endpointOf r1) →
              s.Path = r1.path ∧ s.Name = r1.name) := by
  obtain ⟨hitems, hcalls⟩ := newRegistrars_items_calls base c zo w
  have hep : endpointOf r2 = endpointOf r1 := endpointOf_eq_of_fields r1 r2 hs ha hp
  have hrec : (newService r2).2 ≠ (newService r1).2 := by
    intro h
    have h1 : (newService r2).2.Path = (newService r1).2.Path := by rw [h]
    have h2 : (newService r2).2.Name = (newService r1).2.Name := by rw [h]
    rcases hdiff with hd | hd
    · exact hd h1
    · exact hd h2
  -- every creation labelled with the identity is the one of the kept registration
  have hcallk : ∀ (k : Registration), k ∈ keepFirstBy endpointOf zo.registrations →
      endpointOf k = endpointOf r1 →
      ∀ s lg, Call.NewRegistrar c s lg
          ∈ (keepFirstBy endpointOf zo.registrations).map (registrarCall base c) →
        lg = base.With "endpoint" (endpointOf r1) → s = (newService k).2 := by
    intro k hk hke s lg hmem hlg
    obtain ⟨k2, hk2, hk2e⟩ := List.mem_map.1 hmem
    simp only [registrarCall, Call.NewRegistrar.injEq, true_and] at hk2e
    obtain ⟨hs2, hl2⟩ := hk2e
    have : endpointOf k2 = endpointOf r1 :=
      Logger.With_endpoint_inj base _ _ (hl2.trans hlg)
    have hkk : k2 = k :=
      keepFirstBy_unique endpointOf _ k2 k hk2 hk (this.trans hke.symm)
    rw [← hs2, hkk]
  have hitemk : ∀ (k : Registration), k ∈ keepFirstBy endpointOf zo.registrations →
      endpointOf k = endpointOf r1 →
      ∀ x ∈ (newRegistrars base c zo w).1.items,
        x.endpoint = some (endpointOf r1) → x = registrarFor base c k := by
    intro k hk hke x hx hxe
    rw [hitems] at hx
    obtain ⟨k2, hk2, rfl⟩ := List.mem_map.1 hx
    rw [Registrar.endpoint_registrarFor] at hxe
    have hkk : k2 = k :=
      keepFirstBy_unique endpointOf _ k2 k hk2 hk ((Option.some.inj hxe).trans hke.symm)
    rw [hkk]
  refine ⟨hep, ?_, hcalls, ?_⟩
  · obtain ⟨r0, hr0, hr0e, hr0k⟩ :=
      keepFirstBy_exists_before endpointOf pre (mid ++ r2 :: post) r1
    rw [← hregs] at hr0k
    refine ⟨r0, hr0, hr0e, ?_, ?_, hitemk r0 hr0k hr0e, hcallk r0 hr0k hr0e⟩
    · have hfind := keepFirstBy_find endpointOf _ r0 hr0k
      rw [hr0e] at hfind
      exact hfind
    · rw [hitems]
      exact List.mem_map.2 ⟨r0, hr0k, rfl⟩
  · intro hfirst
    have hr1k : r1 ∈ keepFirstBy endpointOf zo.registrations := by
      rw [hregs]
      exact keepFirstBy_mem_of_first endpointOf pre _ r1 hfirst
    refine ⟨?_, ?_, List.mem_map.2 ⟨r1, hr1k, rfl⟩, ?_, ?_⟩
    · rw [hitems]
      exact List.mem_map.2 ⟨r1, hr1k, rfl⟩
    · intro hmem
      have := hitemk r1 hr1k rfl _ hmem
        (by rw [Registrar.endpoint_registrarFor, hep])
      have hsv : (registrarFor base c r2).service = (registrarFor base c r1).service := by
        rw [this]
      exact hrec hsv
    · intro hmem
      have := hcallk r1 hr1k rfl (newService r2).2
        (base.With "endpoint" (newService r2).1) hmem
        (by show base.With "endpoint" (endpointOf r2) = _; rw [hep])
      exact hrec this
    · intro s lg hmem hlg
      have := hcallk r1 hr1k rfl s lg hmem hlg
      rw [this]
      exact ⟨rfl, rfl⟩

/-- C18 amended, at the registrations `api` and `admin` of `http://10.0.0.1:8080`: the
only creation is the one for `api`. -/
theorem C18_registrar_dedup_keys_on_endpoint_amended_witness :
    (newRegistrars DefaultLogger ⟨1⟩ exampleOptions emptyWorld).2.calls
      = [registrarCall DefaultLogger ⟨1⟩ ⟨"api", "/reg/api", "10.0.0.1", 8080, "http"⟩]
    ∧ registrarFor DefaultLogger ⟨1⟩ ⟨"admin", "/reg/admin", "10.0.0.1", 8080, "http"⟩
        ∉ (newRegistrars DefaultLogger ⟨1⟩ exampleOptions emptyWorld).1.items :=
  have h := C18_registrar_dedup_keys_on_endpoint_amended DefaultLogger ⟨1⟩ exampleOptions
    emptyWorld [] [] [] ⟨"api", "/reg/api", "10.0.0.1", 8080, "http"⟩
    ⟨"admin", "/reg/admin", "10.0.0.1", 8080, "http"⟩ rfl rfl rfl rfl (Or.inl (by decide))
  ⟨h.2.2.1.trans (by decide), (h.2.2.2 (by simp)).2.1⟩

/-! ### The instancer loop refines creation in order over the distinct paths -/

theorem newInstancersLoop_refines (lib : Gokitzk) (l : Logger) (c : Client)
    (ws : List String) (i : Instancers) (w : World) :
    (newInstancersLoop lib l c ws i w).1.1.entries
        = i.entries ++ (createInOrder lib l c
            ((distinctPaths ws).filter (fun p => decide (p ∉ i.keys))) w.calls).1.1
    ∧ (newInstancersLoop lib l c ws i w).1.2
        = (createInOrder lib l c
            ((distinctPaths ws).filter (fun p => decide (p ∉ i.keys))) w.calls).1.2
    ∧ (newInstancersLoop lib l c ws i w).2.calls
        = (createInOrder lib l c
            ((distinctPaths ws).filter (fun p => decide (p ∉ i.keys))) w.calls).2 := by
  induction ws generalizing i w with
  | nil => simp [newInstancersLoop, distinctPaths, keepFirstBy, createInOrder]
  | cons path rest ih =>
    by_cases h : path ∈ i.keys
    · have hh : i.Has path = true := by simpa [Instancers.Has] using h
      have hf : (distinctPaths (path :: rest)).filter (fun p => decide (p ∉ i.keys))
          = (distinctPaths rest).filter (fun p => decide (p ∉ i.keys)) := by
        simp only [distinctPaths, keepFirstBy]
        rw [List.filter_cons_of_neg (by simpa using h)]
        exact keepFirstBy_filter_seen id path i.keys h _
      simp only [newInstancersLoop, hh, if_true]
      rw [hf]
      exact ih i _
    · have hh : i.Has path = false := by simpa [Instancers.Has] using h
      have hf : (distinctPaths (path :: rest)).filter (fun p => decide (p ∉ i.keys))
          = path :: (distinctPaths rest).filter
            (fun p => decide (p ∉ i.keys ++ [path])) := by
        simp only [distinctPaths, keepFirstBy]
        rw [List.filter_cons_of_pos (by simpa using h)]
        exact congrArg (List.cons path) (keepFirstBy_filter_snoc id path i.keys _).symm
      rw [hf]
      cases hN : lib.NewInstancer w.calls c path l with
      | error err =>
        simp [newInstancersLoop, hh, newInstancer, hN, createInOrder, World.call]
      | ok n =>
        obtain ⟨hent, hkeys⟩ := Instancers.keys_Set_of_not_Has i path
          (Instancer.contextual (Instancer.zk n) [("path", path)]) h
        have hloop : newInstancersLoop lib l c (path :: rest) i w
            = newInstancersLoop lib l c rest
              (i.Set path (Instancer.contextual (Instancer.zk n) [("path", path)]))
              (w.call (Call.NewInstancer c path l)) := by
          simp [newInstancersLoop, hh, newInstancer, hN]
        obtain ⟨h1, h2, h3⟩ := ih
          (i.Set path (Instancer.contextual (Instancer.zk n) [("path", path)]))
          (w.call (Call.NewInstancer c path l))
        rw [hkeys, hent] at h1
        rw [hkeys] at h2 h3
        have hw : (w.call (Call.NewInstancer c path l)).calls
            = w.calls ++ [Call.NewInstancer c path l] := rfl
        rw [hw] at h1 h2 h3
        rw [hloop]
        simp only [createInOrder, hN]
        refine ⟨?_, h2, h3⟩
        rw [h1]
        simp

/-- The error of creation in order: it is the error of a path of the list whose creation
fails after every earlier creation succeeded. -/
theorem createInOrder_error_iff (lib : Gokitzk) (l : Logger) (c : Client)
    (ps : List String) (h : List Call) (e : Error) :
    (createInOrder lib l c ps h).1.2 = some e
      ↔ ∃ (pre : List String) (p : String),
          pre ++ [p] <+: ps
          ∧ (∀ (pre1 : List String) (q : String), pre1 ++ [q] <+: pre →
              ∃ n, lib.NewInstancer (h ++ pre1.map (fun x => Call.NewInstancer c x l)) c q l
                = Except.ok n)
          ∧ lib.NewInstancer (h ++ pre.map (fun x => Call.NewInstancer c x l)) c p l
              = Except.error e := by
  induction ps generalizing h with
  | nil =>
    constructor
    · intro hh
      simp [createInOrder] at hh
    · rintro ⟨pre, p, hpre, _, _⟩
      have := List.prefix_nil.1 hpre
      simp at this
  | cons p0 ps ih =>
    cases hN : lib.NewInstancer h c p0 l with
    | error e0 =>
      constructor
      · intro hh
        have he : e0 = e := by simpa [createInOrder, hN] using hh
        subst he
        refine ⟨[], p0, by simp, ?_, by simpa using hN⟩
        intro pre1 q hq
        have := List.prefix_nil.1 hq
        simp at this
      · rintro ⟨pre, p, hpre, hsucc, hfail⟩
        cases pre with
        | nil =>
          have hp : p = p0 := (List.cons_prefix_cons.1 hpre).1
          subst hp
          simp only [List.map_nil, List.append_nil] at hfail
          rw [hN] at hfail
          cases hfail
          simp [createInOrder, hN]
        | cons q pre2 =>
          have hq : q = p0 := (List.cons_prefix_cons.1 hpre).1
          subst hq
          obtain ⟨n, hn⟩ := hsucc [] q (by simp)
          simp only [List.map_nil, List.append_nil] at hn
          rw [hN] at hn
          cases hn
    | ok n =>
      have hstep : (createInOrder lib l c (p0 :: ps) h).1.2
          = (createInOrder lib l c ps (h ++ [Call.NewInstancer c p0 l])).1.2 := by
        simp [createInOrder, hN]
      rw [hstep, ih]
      constructor
      · rintro ⟨pre, p, hpre, hsucc, hfail⟩
        refine ⟨p0 :: pre, p, ?_, ?_, ?_⟩
        · exact (List.prefix_cons_inj p0).2 hpre
        · intro pre1 q hq
          cases pre1 with
          | nil =>
            have hq0 : q = p0 := (List.cons_prefix_cons.1 hq).1
            subst hq0
            exact ⟨n, by simpa using hN⟩
          | cons q1 pre2 =>
            have hq1 : q1 = p0 := (List.cons_prefix_cons.1 hq).1
            subst hq1
            have hq2 : pre2 ++ [q] <+: pre := (List.prefix_cons_inj q1).1 hq
            obtain ⟨m, hm⟩ := hsucc pre2 q hq2
            exact ⟨m, by simpa using hm⟩
        · simpa using hfail
      · rintro ⟨pre, p, hpre, hsucc, hfail⟩
        cases pre with
        | nil =>
          have hp : p = p0 := (List.cons_prefix_cons.1 hpre).1
          subst hp
          simp only [List.map_nil, List.append_nil] at hfail
          rw [hN] at hfail
          cases hfail
        | cons q pre2 =>
          have hq : q = p0 := (List.cons_prefix_cons.1 hpre).1
          subst hq
          refine ⟨pre2, p, (List.prefix_cons_inj q).1 hpre, ?_, by simpa using hfail⟩
          intro pre1 q1 hq1
          obtain ⟨m, hm⟩ := hsucc (q :: pre1) q1 ((List.prefix_cons_inj q).2 hq1)
          exact ⟨m, by simpa using hm⟩

theorem distinctPaths_nodup (ws : List String) : (distinctPaths ws).Nodup := by
  have := keepFirstBy_keys_nodup (id : String → String) ws
  simpa [distinctPaths] using this

theorem newInstancers_refines (lib : Gokitzk) (l : Logger) (c : Client) (zo : Options)
    (w : World) :
    (newInstancers lib l c zo w).1.1.entries
        = (createInOrder lib l c (distinctPaths zo.watches) w.calls).1.1
    ∧ (newInstancers lib l c zo w).1.2
        = (createInOrder lib l c (distinctPaths zo.watches) w.calls).1.2
    ∧ (newInstancers lib l c zo w).2.calls
        = (createInOrder lib l c (distinctPaths zo.watches) w.calls).2 := by
  obtain ⟨h1, h2, h3⟩ := newInstancersLoop_refines lib l c zo.watches Instancers.empty w
  rw [distinctPaths_filter_empty] at h1 h2 h3
  refine ⟨?_, h2, h3⟩
  have : (newInstancers lib l c zo w).1.1.entries
      = Instancers.empty.entries
        ++ (createInOrder lib l c (distinctPaths zo.watches) w.calls).1.1 := h1
  rw [this]
  simp [Instancers.empty]

/-- C15: newInstancers is fail-fast in configuration order.  It returns the error e if and
only if some distinct watch path, reached at its first occurrence after the creations for
all earlier distinct paths succeeded, fails to be created with e; when it returns an error,
the failing creation is the last call made and the set returned holds exactly the earlier
paths; the creations attempted are a prefix of the distinct paths, each attempted once, so a
duplicate of an earlier path causes no creation; and the error and the calls are those of
creating the distinct paths in order, so a duplicate causes no error. -/
theorem C15_newInstancers_fail_fast (lib : Gokitzk) (l : Logger) (c : Client)
    (zo : Options) (w : World) :
    (∀ e : Error, (newInstancers lib l c zo w).1.2 = some e
      ↔ ∃ (pre : List String) (p : String),
          pre ++ [p] <+: distinctPaths zo.watches
          ∧ (∀ (pre1 : List String) (q : String), pre1 ++ [q] <+: pre →
              ∃ n, lib.NewInstancer
                (w.calls ++ pre1.map (fun x => Call.NewInstancer c x l)) c q l = Except.ok n)
          ∧ lib.NewInstancer (w.calls ++ pre.map (fun x => Call.NewInstancer c x l)) c p l
              = Except.error e)
    ∧ (∀ e : Error, (newInstancers lib l c zo w).1.2 = some e →
        ∃ (pre : List String) (p : String),
          pre ++ [p] <+: distinctPaths zo.watches
          ∧ lib.NewInstancer (w.calls ++ pre.map (fun x => Call.NewInstancer c x l)) c p l
              = Except.error e
          ∧ (newInstancers lib l c zo w).2.calls
              = w.calls ++ (pre ++ [p]).map (fun x => Call.NewInstancer c x l)
          ∧ (newInstancers lib l c zo w).1.1.keys = pre)
    ∧ (∃ attempted : List String,
        attempted <+: distinctPaths zo.watches
        ∧ attempted.Nodup
        ∧ (newInstancers lib l c zo w).2.calls
            = w.calls ++ attempted.map (fun x => Call.NewInstancer c x l))
    ∧ (newInstancers lib l c zo w).1.2
        = (createInOrder lib l c (distinctPaths zo.watches) w.calls).1.2
    ∧ (newInstancers lib l c zo w).2.calls
        = (createInOrder lib l c (distinctPaths zo.watches) w.calls).2 := by
  obtain ⟨_, hr2, hr3⟩ := newInstancers_refines lib l c zo w
  refine ⟨?_, ?_, ?_, hr2, hr3⟩
  · intro e
    rw [hr2]
    exact createInOrder_error_iff lib l c (distinctPaths zo.watches) w.calls e
  · intro e he
    obtain ⟨pre, p, h1, h2, h3, h4⟩ :=
      newInstancersLoop_error lib l c zo.watches Instancers.empty w e he
    rw [distinctPaths_filter_empty] at h1
    refine ⟨pre, p, h1, h3, h2, ?_⟩
    have : (newInstancers lib l c zo w).1.1.keys = Instancers.empty.keys ++ pre := h4
    rw [this]
    simp [Instancers.empty, Instancers.keys]
  · obtain ⟨att, h1, h2, _⟩ := newInstancers_calls lib l c zo w
    exact ⟨att, h1, (distinctPaths_nodup zo.watches).sublist h1.sublist, h2⟩

/-- C15, at the watches `/svc/a`, `/svc/a`, `/svc/b` and a library in which `/svc/b`
cannot be watched: the error is that of `/svc/b`, and the duplicate of `/svc/a` causes no
call. -/
theorem C15_newInstancers_fail_fast_witness :
    (newInstancers brokenWatchLib DefaultLogger ⟨1⟩ exampleOptions emptyWorld).1.2
        = some "no node"
    ∧ (newInstancers brokenWatchLib DefaultLogger ⟨1⟩ exampleOptions emptyWorld).2.calls
        = [Call.NewInstancer ⟨1⟩ "/svc/a" DefaultLogger,
            Call.NewInstancer ⟨1⟩ "/svc/b" DefaultLogger] :=
  ⟨((C15_newInstancers_fail_fast brokenWatchLib DefaultLogger ⟨1⟩ exampleOptions
      emptyWorld).1 "no node").2
      ⟨["/svc/a"], "/svc/b", by decide,
        fun pre1 q hq => by
          have h1 : pre1 = [] ∧ q = "/svc/a" := by
            cases pre1 with
            | nil => exact ⟨rfl, (List.cons_prefix_cons.1 hq).1⟩
            | cons a t =>
              have := (List.cons_prefix_cons.1 hq).2
              have := List.prefix_nil.1 this
              simp at this
          obtain ⟨rfl, rfl⟩ := h1
          exact ⟨0, rfl⟩,
        rfl⟩,
    by decide⟩

/-! ### Duplicates do not change the build -/

theorem keepFirstBy_of_nodup {α κ : Type} [DecidableEq κ] (key : α → κ) (xs : List α)
    (h : (xs.map key).Nodup) : keepFirstBy key xs = xs := by
  induction xs with
  | nil => rfl
  | cons x xs ih =>
    simp only [List.map_cons, List.nodup_cons] at h
    simp only [keepFirstBy]
    rw [ih h.2]
    congr 1
    rw [List.filter_eq_self]
    intro y hy
    have : key y ≠ key x := fun e => h.1 (e ▸ List.mem_map.2 ⟨y, hy, rfl⟩)
    simpa using this

theorem keepFirstBy_idem {α κ : Type} [DecidableEq κ] (key : α → κ) (xs : List α) :
    keepFirstBy key (keepFirstBy key xs) = keepFirstBy key xs :=
  keepFirstBy_of_nodup key _ (keepFirstBy_keys_nodup key xs)

theorem distinctPaths_idem (ws : List String) :
    distinctPaths (distinctPaths ws) = distinctPaths ws :=
  keepFirstBy_idem id ws

theorem keepFirstBy_eq_nil {α κ : Type} [DecidableEq κ] (key : α → κ) (xs : List α) :
    keepFirstBy key xs = [] ↔ xs = [] := by
  cases xs <;> simp [keepFirstBy]

theorem dedupOptions_empty_iff (zo : Options) :
    ((dedupOptions zo).Watches = [] ∧ (dedupOptions zo).Registrations = [])
      ↔ (zo.Watches = [] ∧ zo.Registrations = []) := by
  simp [dedupOptions, distinctPaths, keepFirstBy_eq_nil]

theorem newInstancers_dedup (lib : Gokitzk) (l : Logger) (c : Client) (zo : Options)
    (w : World) :
    (newInstancers lib l c (dedupOptions zo) w).1 = (newInstancers lib l c zo w).1
    ∧ (newInstancers lib l c (dedupOptions zo) w).2.calls
        = (newInstancers lib l c zo w).2.calls := by
  obtain ⟨a1, a2, a3⟩ := newInstancers_refines lib l c zo w
  obtain ⟨b1, b2, b3⟩ := newInstancers_refines lib l c (dedupOptions zo) w
  have hw : (dedupOptions zo).watches = distinctPaths zo.watches := rfl
  rw [hw, distinctPaths_idem] at b1 b2 b3
  refine ⟨?_, b3.trans a3.symm⟩
  have he : (newInstancers lib l c (dedupOptions zo) w).1.1.entries
      = (newInstancers lib l c zo w).1.1.entries := b1.trans a1.symm
  have hi : (newInstancers lib l c (dedupOptions zo) w).1.1
      = (newInstancers lib l c zo w).1.1 := by
    cases hA : (newInstancers lib l c (dedupOptions zo) w).1.1
    cases hB : (newInstancers lib l c zo w).1.1
    rw [hA, hB] at he
    simp only at he
    rw [he]
  exact Prod.ext hi (b2.trans a2.symm)

theorem newRegistrars_dedup (base : Logger) (c : Client) (zo : Options) (w w1 : World)
    (hw : w1.calls = w.calls) :
    (newRegistrars base c (dedupOptions zo) w1).1 = (newRegistrars base c zo w).1
    ∧ (newRegistrars base c (dedupOptions zo) w1).2.calls
        = (newRegistrars base c zo w).2.calls := by
  obtain ⟨a1, a2⟩ := newRegistrars_items_calls base c zo w
  obtain ⟨b1, b2⟩ := newRegistrars_items_calls base c (dedupOptions zo) w1
  have hr : (dedupOptions zo).registrations = keepFirstBy endpointOf zo.registrations := rfl
  rw [hr, keepFirstBy_idem] at b1 b2
  refine ⟨?_, ?_⟩
  · have hi : (newRegistrars base c (dedupOptions zo) w1).1.items
        = (newRegistrars base c zo w).1.items := b1.trans a1.symm
    cases hA : (newRegistrars base c (dedupOptions zo) w1).1
    cases hB : (newRegistrars base c zo w).1
    rw [hA, hB] at hi
    simp only at hi
    rw [hi]
  · rw [b2, a2, hw]

/-- C17: for every Options, NewEnvironment returns the same environment and error, and
makes the same sequence of client calls (connect, instancer creations by path, registrar
creations by service record, stop), as it does for the Options obtained by deleting every
later duplicate watch path and every later registration with an already-seen endpoint
identity; in particular, if the build of the Options without duplicates returns no error,
so does the build of the Options with them. -/
theorem C17_NewEnvironment_duplicate_insensitive (lib : Gokitzk) (l : Option Logger)
    (zo : Options) (eo : List ServiceOption) (w : World) :
    (NewEnvironment lib l zo eo w).1 = (NewEnvironment lib l (dedupOptions zo) eo w).1
    ∧ (NewEnvironment lib l zo eo w).2.calls
        = (NewEnvironment lib l (dedupOptions zo) eo w).2.calls
    ∧ ((NewEnvironment lib l (dedupOptions zo) eo w).1.2 = none →
        (NewEnvironment lib l zo eo w).1.2 = none) := by
  have main : (NewEnvironment lib l zo eo w).1
        = (NewEnvironment lib l (dedupOptions zo) eo w).1
      ∧ (NewEnvironment lib l zo eo w).2.calls
        = (NewEnvironment lib l (dedupOptions zo) eo w).2.calls := by
    by_cases h : zo.Watches = [] ∧ zo.Registrations = []
    · rw [NewEnvironment_noop lib l zo eo w h,
        NewEnvironment_noop lib l (dedupOptions zo) eo w ((dedupOptions_empty_iff zo).2 h)]
      exact ⟨rfl, rfl⟩
    · have h1 : ¬ ((dedupOptions zo).Watches = [] ∧ (dedupOptions zo).Registrations = []) :=
        fun hd => h ((dedupOptions_empty_iff zo).1 hd)
      cases hc : lib.clientFactory w.calls zo.servers (loggerOf l)
          [ClientOption.ConnectTimeout zo.connectTimeout,
            ClientOption.SessionTimeout zo.sessionTimeout] with
      | error e =>
        rw [NewEnvironment_connect_error lib l zo eo w e h hc,
          NewEnvironment_connect_error lib l (dedupOptions zo) eo w e h1 hc]
        exact ⟨rfl, rfl⟩
      | ok c =>
        obtain ⟨d1, d2⟩ := newInstancers_dedup lib (loggerOf l) c zo
          (w.call (connectCall (loggerOf l) zo))
        cases hi : (newInstancers lib (loggerOf l) c zo
            (w.call (connectCall (loggerOf l) zo))).1.2 with
        | some e =>
          have hi1 : (newInstancers lib (loggerOf l) c (dedupOptions zo)
              (w.call (connectCall (loggerOf l) (dedupOptions zo)))).1.2 = some e := by
            have : (newInstancers lib (loggerOf l) c (dedupOptions zo)
                (w.call (connectCall (loggerOf l) zo))).1.2 = some e := by
              rw [d1]; exact hi
            exact this
          rw [NewEnvironment_instancer_error lib l zo eo w c e h hc hi,
            NewEnvironment_instancer_error lib l (dedupOptions zo) eo w c e h1 hc hi1]
          refine ⟨rfl, ?_⟩
          show _ ++ [Call.Stop c] = _ ++ [Call.Stop c]
          have : (newInstancers lib (loggerOf l) c (dedupOptions zo)
                (w.call (connectCall (loggerOf l) (dedupOptions zo)))).2.calls
              = (newInstancers lib (loggerOf l) c zo
                (w.call (connectCall (loggerOf l) zo))).2.calls := d2
          rw [this]
        | none =>
          have hi1 : (newInstancers lib (loggerOf l) c (dedupOptions zo)
              (w.call (connectCall (loggerOf l) (dedupOptions zo)))).1.2 = none := by
            have : (newInstancers lib (loggerOf l) c (dedupOptions zo)
                (w.call (connectCall (loggerOf l) zo))).1.2 = none := by
              rw [d1]; exact hi
            exact this
          have d1b : (newInstancers lib (loggerOf l) c (dedupOptions zo)
                (w.call (connectCall (loggerOf l) (dedupOptions zo)))).1.1
              = (newInstancers lib (loggerOf l) c zo
                (w.call (connectCall (loggerOf l) zo))).1.1 := congrArg Prod.fst d1
          obtain ⟨r1, r2⟩ := newRegistrars_dedup (loggerOf l) c zo
            (newInstancers lib (loggerOf l) c zo (w.call (connectCall (loggerOf l) zo))).2
            (newInstancers lib (loggerOf l) c (dedupOptions zo)
              (w.call (connectCall (loggerOf l) (dedupOptions zo)))).2 d2
          rw [NewEnvironment_success lib l zo eo w c h hc hi,
            NewEnvironment_success lib l (dedupOptions zo) eo w c h1 hc hi1]
          refine ⟨?_, r2.symm⟩
          simp only
          rw [r1, d1b]
  exact ⟨main.1, main.2, fun hnone => by rw [main.1]; exact hnone⟩

/-- C17, at the example configuration: the build with the repeated watch path and the
repeated endpoint makes the calls of the build without them. -/
theorem C17_NewEnvironment_duplicate_insensitive_example :
    (NewEnvironment exampleLib none exampleOptions [] emptyWorld).2.calls
      = [connectCall DefaultLogger exampleOptions,
          Call.NewInstancer ⟨1⟩ "/svc/a" DefaultLogger,
          Call.NewInstancer ⟨1⟩ "/svc/b" DefaultLogger,
          registrarCall DefaultLogger ⟨1⟩ ⟨"api", "/reg/api", "10.0.0.1", 8080, "http"⟩]
    ∧ dedupOptions exampleOptions
      = ⟨["s1"], 5, 10, [⟨"api", "/reg/api", "10.0.0.1", 8080, "http"⟩],
          ["/svc/a", "/svc/b"]⟩ :=
  ⟨(C17_NewEnvironment_duplicate_insensitive exampleLib none exampleOptions []
      emptyWorld).2.1.trans (by decide), by decide⟩

end zk

namespace wrp

/-! ### Full pools of one format -/

theorem encoder_Get_format (ep : EncoderPool) : ep.Get.2.format = ep.format := by
  unfold EncoderPool.Get
  split <;> rfl

theorem encoder_Put_format (ep : EncoderPool) (e : Encoder) :
    (ep.Put e).format = ep.format := by
  unfold EncoderPool.Put
  split <;> rfl

theorem encoder_Get_handle_format (ep : EncoderPool) (h : ep.Homogeneous) :
    ep.Get.1.format = ep.format := by
  obtain ⟨cap, pool, fmt, b, a⟩ := ep
  cases pool with
  | nil => rfl
  | cons e rest => exact h e (List.mem_cons_self _ _)

/-- Acquiring from a full pool of one format and releasing the instance leaves a full pool
of that format. -/
theorem encoder_bracket_full (ep : EncoderPool) (hlen : ep.pool.length = ep.capacity)
    (hh : ep.Homogeneous) :
    (ep.Get.2.Put ep.Get.1).pool.length = ep.capacity
    ∧ (ep.Get.2.Put ep.Get.1).Homogeneous
    ∧ (ep.Get.2.Put ep.Get.1).capacity = ep.capacity
    ∧ (ep.Get.2.Put ep.Get.1).format = ep.format := by
  refine ⟨?_, ?_, ?_, ?_⟩
  · rw [encoder_bracket_length ep (le_of_eq hlen)]
    split <;> omega
  · obtain ⟨cap, pool, fmt, b, a⟩ := ep
    cases pool with
    | nil =>
      simp only [List.length_nil] at hlen
      subst hlen
      intro e he
      simp [EncoderPool.Get, EncoderPool.Put, EncoderPool.factory] at he
    | cons e rest =>
      have hlt : rest.length < cap := by
        simp only [List.length_cons] at hlen
        omega
      intro x hx
      simp only [EncoderPool.Get, EncoderPool.Put, hlt, if_true, List.mem_append,
        List.mem_singleton] at hx
      rw [encoder_Put_format, encoder_Get_format]
      rcases hx with hx | hx
      · exact hh x (List.mem_cons_of_mem _ hx)
      · rw [hx]
        exact hh e (List.mem_cons_self _ _)
  · rw [encoder_Put_capacity, encoder_Get_capacity]
  · rw [encoder_Put_format, encoder_Get_format]

theorem encoder_fill_full (n : Nat) (ep : EncoderPool)
    (hroom : ep.pool.length + n ≤ ep.capacity) (hh : ep.Homogeneous) :
    (EncoderPool.fill n ep).pool.length = ep.pool.length + n
    ∧ (EncoderPool.fill n ep).Homogeneous
    ∧ (EncoderPool.fill n ep).capacity = ep.capacity
    ∧ (EncoderPool.fill n ep).format = ep.format := by
  induction n generalizing ep with
  | zero => exact ⟨rfl, hh, rfl, rfl⟩
  | succ n ih =>
    have hlt : ep.pool.length < ep.capacity := by omega
    have hput : ep.factory.2.Put ep.factory.1
        = ⟨ep.capacity, ep.pool ++ [⟨ep.allocated, ep.format, ep.initialBufferSize⟩],
            ep.format, ep.initialBufferSize, ep.allocated + 1⟩ := by
      simp [EncoderPool.Put, EncoderPool.factory, hlt]
    have hh1 : (ep.factory.2.Put ep.factory.1).Homogeneous := by
      rw [hput]
      intro x hx
      simp only [List.mem_append, List.mem_singleton] at hx
      rcases hx with hx | hx
      · exact hh x hx
      · rw [hx]
    have hroom1 : (ep.factory.2.Put ep.factory.1).pool.length + n
        ≤ (ep.factory.2.Put ep.factory.1).capacity := by
      rw [hput]
      simp only [List.length_append, List.length_singleton]
      omega
    obtain ⟨h1, h2, h3, h4⟩ := ih _ hroom1 hh1
    simp only [EncoderPool.fill]
    refine ⟨?_, h2, ?_, ?_⟩
    · rw [h1, hput]
      simp only [List.length_append, List.length_singleton]
      omega
    · rw [h3, hput]
    · rw [h4, hput]

/-- The constructed encoder pool is full: it holds `poolSize` idle instances, all of its
format, and its capacity is `poolSize`. -/
theorem NewEncoderPool_full (poolSize initialBufferSize : Nat) (f : Format) :
    (NewEncoderPool poolSize initialBufferSize f).pool.length = poolSize
    ∧ (NewEncoderPool poolSize initialBufferSize f).Homogeneous
    ∧ (NewEncoderPool poolSize initialBufferSize f).capacity = poolSize
    ∧ (NewEncoderPool poolSize initialBufferSize f).format = f := by
  have := encoder_fill_full poolSize ⟨poolSize, [], f, initialBufferSize, 0⟩
    (by simp) (by intro e he; simp at he)
  simpa [NewEncoderPool] using this

theorem encoder_drain_enough (fuel : Nat) (ep : EncoderPool) (h : ep.pool.length ≤ fuel) :
    ∃ ep1, EncoderPool.drain fuel ep = some ep1 ∧ ep1.pool = []
      ∧ ep1.capacity = ep.capacity ∧ ep1.format = ep.format := by
  induction fuel generalizing ep with
  | zero =>
    have : ep.pool = [] := List.length_eq_zero.1 (Nat.le_zero.1 h)
    exact ⟨ep, by simp [EncoderPool.drain, this], this, rfl, rfl⟩
  | succ fuel ih =>
    by_cases hp : ep.pool.length > 0
    · have hle : ep.Get.2.pool.length ≤ fuel := by
        obtain ⟨cap, pool, fmt, b, a⟩ := ep
        cases pool with
        | nil => simp at hp
        | cons e rest =>
          simp only [List.length_cons] at h
          simp only [EncoderPool.Get]
          omega
      obtain ⟨ep1, h1, h2, h3, h4⟩ := ih ep.Get.2 hle
      refine ⟨ep1, ?_, h2, h3.trans (encoder_Get_capacity ep),
        h4.trans (encoder_Get_format ep)⟩
      simp only [EncoderPool.drain, hp, if_true]
      exact h1
    · have : ep.pool = [] := List.length_eq_zero.1 (by omega)
      exact ⟨ep, by simp [EncoderPool.drain, this], this, rfl, rfl⟩

theorem encoder_refill_enough (target fuel : Nat) (ep : EncoderPool)
    (hlen : ep.pool.length ≤ target) (hcap : target ≤ ep.capacity)
    (hfuel : target - ep.pool.length ≤ fuel) :
    ∃ ep1, EncoderPool.refill target fuel ep = some ep1 ∧ ep1.pool.length = target
      ∧ ep1.capacity = ep.capacity := by
  induction fuel generalizing ep with
  | zero =>
    have : ep.pool.length = target := by omega
    exact ⟨ep, by simp [EncoderPool.refill, this], this, rfl⟩
  | succ fuel ih =>
    by_cases hp : ep.pool.length < target
    · have hlt : ep.pool.length < ep.capacity := by omega
      have hput : ep.factory.2.Put ep.factory.1
          = ⟨ep.capacity, ep.pool ++ [⟨ep.allocated, ep.format, ep.initialBufferSize⟩],
              ep.format, ep.initialBufferSize, ep.allocated + 1⟩ := by
        simp [EncoderPool.Put, EncoderPool.factory, hlt]
      obtain ⟨ep1, h1, h2, h3⟩ := ih (ep.factory.2.Put ep.factory.1)
        (by rw [hput]; simp only [List.length_append, List.length_singleton]; omega)
        (by rw [hput]; exact hcap)
        (by rw [hput]; simp only [List.length_append, List.length_singleton]; omega)
      refine ⟨ep1, ?_, h2, ?_⟩
      · simp only [EncoderPool.refill, hp, if_true]
        exact h1
      · rw [h3, hput]
    · have : ep.pool.length = target := by omega
      exact ⟨ep, by simp [EncoderPool.refill, this], this, rfl⟩

/-- The outcome of `testEncoderPool` on a full pool of one format, given enough fuel: only
the first assertion depends on the pool (it holds when the pool is not empty), the
assertions on the codec's output depend on the codec, and every other assertion holds. -/
theorem testEncoderPool_on_full (codec : Codec) (fuel : Nat) (ep : EncoderPool)
    (hlen : ep.pool.length = ep.capacity) (hh : ep.Homogeneous)
    (hfuel : ep.capacity ≤ fuel) :
    testEncoderPool codec fuel ep
      = some [decide (ep.capacity > 0),
          (codec.encode ep.format testMessage).2.isNone,
          true,
          decide ((codec.encode ep.format testMessage).1.length > 0),
          true,
          decide ((codec.encode ep.format testMessage).1 ≠ []),
          (codec.encode ep.format testMessage).2.isNone,
          true,
          true,
          true] := by
  obtain ⟨a1, a2, a3, a4⟩ := encoder_bracket_full ep hlen hh
  have hf1 : ep.Get.1.format = ep.format := encoder_Get_handle_format ep hh
  have hE1 : (ep.Encode codec [] testMessage).1
      = ((codec.encode ep.format testMessage).2, (codec.encode ep.format testMessage).1) := by
    simp [EncoderPool.Encode, hf1]
  have hE2 : (ep.Encode codec [] testMessage).2 = ep.Get.2.Put ep.Get.1 := rfl
  obtain ⟨b1, b2, b3, b4⟩ := encoder_bracket_full (ep.Get.2.Put ep.Get.1)
    (a1.trans a3.symm) a2
  have hf2 : (ep.Get.2.Put ep.Get.1).Get.1.format = ep.format :=
    (encoder_Get_handle_format _ a2).trans a4
  have hB1 : ((ep.Get.2.Put ep.Get.1).EncodeBytes codec testMessage).1
      = ((codec.encode ep.format testMessage).1, (codec.encode ep.format testMessage).2) := by
    simp [EncoderPool.EncodeBytes, hf2]
  have hB2 : ((ep.Get.2.Put ep.Get.1).EncodeBytes codec testMessage).2
      = (ep.Get.2.Put ep.Get.1).Get.2.Put (ep.Get.2.Put ep.Get.1).Get.1 := rfl
  obtain ⟨ep3, c1, c2, c3, _⟩ := encoder_drain_enough fuel
    ((ep.Get.2.Put ep.Get.1).Get.2.Put (ep.Get.2.Put ep.Get.1).Get.1)
    (by rw [b1, a3]; exact hfuel)
  have hg : ep3.Get.2.pool = [] ∧ ep3.Get.2.capacity = ep.capacity := by
    refine ⟨?_, ?_⟩
    · simp [EncoderPool.Get, c2, EncoderPool.factory]
    · rw [encoder_Get_capacity, c3, b3, a3]
  obtain ⟨ep4, d1, d2, d3⟩ := encoder_refill_enough ep.pool.length fuel ep3.Get.2
    (by rw [hg.1]; simp) (by rw [hg.2, hlen]) (by rw [hg.1, hlen]; simpa using hfuel)
  have hfin : (ep4.factory.2.Put ep4.factory.1).pool.length = ep.pool.length := by
    have : ¬ ep4.pool.length < ep4.capacity := by
      rw [d2, d3, hg.2, hlen]
      exact Nat.lt_irrefl _
    have hput : ep4.factory.2.Put ep4.factory.1 = ep4.factory.2 := by
      simp only [EncoderPool.Put, EncoderPool.factory]
      rw [if_neg this]
    rw [hput]
    exact d2
  rw [hlen] at d1 hfin
  simp only [testEncoderPool, hE2, hB2, c1, hE1, hB1, b1, a1, a3, hlen, d1, hfin]
  simp

theorem decoder_Get_format (dp : DecoderPool) : dp.Get.2.format = dp.format := by
  unfold DecoderPool.Get
  split <;> rfl

theorem decoder_Put_format (dp : DecoderPool) (d : Decoder) :
    (dp.Put d).format = dp.format := by
  unfold DecoderPool.Put
  split <;> rfl

theorem decoder_Get_handle_format (dp : DecoderPool) (h : dp.Homogeneous) :
    dp.Get.1.format = dp.format := by
  obtain ⟨cap, pool, fmt, a⟩ := dp
  cases pool with
  | nil => rfl
  | cons d rest => exact h d (List.mem_cons_self _ _)

/-- Acquiring from a full decoder pool of one format and releasing the instance leaves a
full pool of that format. -/
theorem decoder_bracket_full (dp : DecoderPool) (hlen : dp.pool.length = dp.capacity)
    (hh : dp.Homogeneous) :
    (dp.Get.2.Put dp.Get.1).pool.length = dp.capacity
    ∧ (dp.Get.2.Put dp.Get.1).Homogeneous
    ∧ (dp.Get.2.Put dp.Get.1).capacity = dp.capacity
    ∧ (dp.Get.2.Put dp.Get.1).format = dp.format := by
  refine ⟨?_, ?_, ?_, ?_⟩
  · rw [decoder_bracket_length dp (le_of_eq hlen)]
    split <;> omega
  · obtain ⟨cap, pool, fmt, a⟩ := dp
    cases pool with
    | nil =>
      simp only [List.length_nil] at hlen
      subst hlen
      intro d hd
      simp [DecoderPool.Get, DecoderPool.Put, DecoderPool.factory] at hd
    | cons d rest =>
      have hlt : rest.length < cap := by
        simp only [List.length_cons] at hlen
        omega
      intro x hx
      simp only [DecoderPool.Get, DecoderPool.Put, hlt, if_true, List.mem_append,
        List.mem_singleton] at hx
      rw [decoder_Put_format, decoder_Get_format]
      rcases hx with hx | hx
      · exact hh x (List.mem_cons_of_mem _ hx)
      · rw [hx]
        exact hh d (List.mem_cons_self _ _)
  · rw [decoder_Put_capacity, decoder_Get_capacity]
  · rw [decoder_Put_format, decoder_Get_format]

theorem decoder_fill_full (n : Nat) (dp : DecoderPool)
    (hroom : dp.pool.length + n ≤ dp.capacity) (hh : dp.Homogeneous) :
    (DecoderPool.fill n dp).pool.length = dp.pool.length + n
    ∧ (DecoderPool.fill n dp).Homogeneous
    ∧ (DecoderPool.fill n dp).capacity = dp.capacity
    ∧ (DecoderPool.fill n dp).format = dp.format := by
  induction n generalizing dp with
  | zero => exact ⟨rfl, hh, rfl, rfl⟩
  | succ n ih =>
    have hlt : dp.pool.length < dp.capacity := by omega
    have hput : dp.factory.2.Put dp.factory.1
        = ⟨dp.capacity, dp.pool ++ [⟨dp.allocated, dp.format⟩], dp.format,
            dp.allocated + 1⟩ := by
      simp [DecoderPool.Put, DecoderPool.factory, hlt]
    have hh1 : (dp.factory.2.Put dp.factory.1).Homogeneous := by
      rw [hput]
      intro x hx
      simp only [List.mem_append, List.mem_singleton] at hx
      rcases hx with hx | hx
      · exact hh x hx
      · rw [hx]
    have hroom1 : (dp.factory.2.Put dp.factory.1).pool.length + n
        ≤ (dp.factory.2.Put dp.factory.1).capacity := by
      rw [hput]
      simp only [List.length_append, List.length_singleton]
      omega
    obtain ⟨h1, h2, h3, h4⟩ := ih _ hroom1 hh1
    simp only [DecoderPool.fill]
    refine ⟨?_, h2, ?_, ?_⟩
    · rw [h1, hput]
      simp only [List.length_append, List.length_singleton]
      omega
    · rw [h3, hput]
    · rw [h4, hput]

/-- The constructed decoder pool is full: it holds `poolSize` idle instances, all of its
format, and its capacity is `poolSize`. -/
theorem NewDecoderPool_full (poolSize : Nat) (f : Format) :
    (NewDecoderPool poolSize f).pool.length = poolSize
    ∧ (NewDecoderPool poolSize f).Homogeneous
    ∧ (NewDecoderPool poolSize f).capacity = poolSize
    ∧ (NewDecoderPool poolSize f).format = f := by
  have := decoder_fill_full poolSize ⟨poolSize, [], f, 0⟩
    (by simp) (by intro d hd; simp at hd)
  simpa [NewDecoderPool] using this

theorem decoder_drain_enough (fuel : Nat) (dp : DecoderPool) (h : dp.pool.length ≤ fuel) :
    ∃ dp1, DecoderPool.drain fuel dp = some dp1 ∧ dp1.pool = []
      ∧ dp1.capacity = dp.capacity ∧ dp1.format = dp.format := by
  induction fuel generalizing dp with
  | zero =>
    have : dp.pool = [] := List.length_eq_zero.1 (Nat.le_zero.1 h)
    exact ⟨dp, by simp [DecoderPool.drain, this], this, rfl, rfl⟩
  | succ fuel ih =>
    by_cases hp : dp.pool.length > 0
    · have hle : dp.Get.2.pool.length ≤ fuel := by
        obtain ⟨cap, pool, fmt, a⟩ := dp
        cases pool with
        | nil => simp at hp
        | cons d rest =>
          simp only [List.length_cons] at h
          simp only [DecoderPool.Get]
          omega
      obtain ⟨dp1, h1, h2, h3, h4⟩ := ih dp.Get.2 hle
      refine ⟨dp1, ?_, h2, h3.trans (decoder_Get_capacity dp),
        h4.trans (decoder_Get_format dp)⟩
      simp only [DecoderPool.drain, hp, if_true]
      exact h1
    · have : dp.pool = [] := List.length_eq_zero.1 (by omega)
      exact ⟨dp, by simp [DecoderPool.drain, this], this, rfl, rfl⟩

theorem decoder_refill_enough (target fuel : Nat) (dp : DecoderPool)
    (hlen : dp.pool.length ≤ target) (hcap : target ≤ dp.capacity)
    (hfuel : target - dp.pool.length ≤ fuel) :
    ∃ dp1, DecoderPool.refill target fuel dp = some dp1 ∧ dp1.pool.length = target
      ∧ dp1.capacity = dp.capacity := by
  induction fuel generalizing dp with
  | zero =>
    have : dp.pool.length = target := by omega
    exact ⟨dp, by simp [DecoderPool.refill, this], this, rfl⟩
  | succ fuel ih =>
    by_cases hp : dp.pool.length < target
    · have hlt : dp.pool.length < dp.capacity := by omega
      have hput : dp.factory.2.Put dp.factory.1
          = ⟨dp.capacity, dp.pool ++ [⟨dp.allocated, dp.format⟩], dp.format,
              dp.allocated + 1⟩ := by
        simp [DecoderPool.Put, DecoderPool.factory, hlt]
      obtain ⟨dp1, h1, h2, h3⟩ := ih (dp.factory.2.Put dp.factory.1)
        (by rw [hput]; simp only [List.length_append, List.length_singleton]; omega)
        (by rw [hput]; exact hcap)
        (by rw [hput]; simp only [List.length_append, List.length_singleton]; omega)
      refine ⟨dp1, ?_, h2, ?_⟩
      · simp only [DecoderPool.refill, hp, if_true]
        exact h1
      · rw [h3, hput]
    · have : dp.pool.length = target := by omega
      exact ⟨dp, by simp [DecoderPool.refill, this], this, rfl⟩

/-- On a full decoder pool of one format, `Decode` returns what the codec returns for the
pool's format and leaves a full pool of that format. -/
theorem decoder_Decode_full (codec : Codec) (dp : DecoderPool) (target : Message)
    (source : List UInt8) (hlen : dp.pool.length = dp.capacity) (hh : dp.Homogeneous) :
    (dp.Decode codec target source).1 = codec.decode dp.format target source
    ∧ (dp.Decode codec target source).2.pool.length = dp.capacity
    ∧ (dp.Decode codec target source).2.Homogeneous
    ∧ (dp.Decode codec target source).2.capacity = dp.capacity
    ∧ (dp.Decode codec target source).2.format = dp.format := by
  obtain ⟨a1, a2, a3, a4⟩ := decoder_bracket_full dp hlen hh
  refine ⟨?_, a1, a2, a3, a4⟩
  simp [DecoderPool.Decode, decoder_Get_handle_format dp hh]

theorem decoder_DecodeBytes_full (codec : Codec) (dp : DecoderPool) (target : Message)
    (source : List UInt8) (hlen : dp.pool.length = dp.capacity) (hh : dp.Homogeneous) :
    (dp.DecodeBytes codec target source).1 = codec.decode dp.format target source
    ∧ (dp.DecodeBytes codec target source).2.pool.length = dp.capacity
    ∧ (dp.DecodeBytes codec target source).2.Homogeneous
    ∧ (dp.DecodeBytes codec target source).2.capacity = dp.capacity
    ∧ (dp.DecodeBytes codec target source).2.format = dp.format :=
  decoder_Decode_full codec dp target source hlen hh

theorem decoder_DecodeMessage_full (codec : Codec) (dp : DecoderPool)
    (source : List UInt8) (hlen : dp.pool.length = dp.capacity) (hh : dp.Homogeneous) :
    (dp.DecodeMessage codec source).1 = codec.decode dp.format Message.zero source
    ∧ (dp.DecodeMessage codec source).2.pool.length = dp.capacity
    ∧ (dp.DecodeMessage codec source).2.Homogeneous
    ∧ (dp.DecodeMessage codec source).2.capacity = dp.capacity
    ∧ (dp.DecodeMessage codec source).2.format = dp.format :=
  decoder_Decode_full codec dp Message.zero source hlen hh

theorem decoder_DecodeMessageBytes_full (codec : Codec) (dp : DecoderPool)
    (source : List UInt8) (hlen : dp.pool.length = dp.capacity) (hh : dp.Homogeneous) :
    (dp.DecodeMessageBytes codec source).1 = codec.decode dp.format Message.zero source
    ∧ (dp.DecodeMessageBytes codec source).2.pool.length = dp.capacity
    ∧ (dp.DecodeMessageBytes codec source).2.Homogeneous
    ∧ (dp.DecodeMessageBytes codec source).2.capacity = dp.capacity
    ∧ (dp.DecodeMessageBytes codec source).2.format = dp.format :=
  decoder_Decode_full codec dp Message.zero source hlen hh

/-- The outcome of `testDecoderPool` on a full pool of the tested format, given enough
fuel, when the stand-alone encoder succeeds: only the assertion `initialSize > 0` depends on
the pool (it holds when the pool is not empty), the assertions on the decoded messages and
errors depend on the codec, and every other assertion holds. -/
theorem testDecoderPool_on_full (codec : Codec) (fuel : Nat) (format : Format)
    (dp : DecoderPool) (hfmt : dp.format = format)
    (hlen : dp.pool.length = dp.capacity) (hh : dp.Homogeneous)
    (hfuel : dp.capacity ≤ fuel)
    (henc : (codec.encode format originalMessage).2 = none) :
    testDecoderPool codec fuel format dp
      = some [true,
          decide (dp.capacity > 0),
          (codec.decode format Message.zero (codec.encode format originalMessage).1).2.isNone,
          true,
          decide (originalMessage
            = (codec.decode format Message.zero (codec.encode format originalMessage).1).1),
          (codec.decode format
            (codec.decode format Message.zero (codec.encode format originalMessage).1).1
            (codec.encode format originalMessage).1).2.isNone,
          true,
          decide (originalMessage
            = (codec.decode format
                (codec.decode format Message.zero (codec.encode format originalMessage).1).1
                (codec.encode format originalMessage).1).1),
          true,
          (codec.decode format Message.zero (codec.encode format originalMessage).1).2.isNone,
          true,
          decide (originalMessage
            = (codec.decode format Message.zero (codec.encode format originalMessage).1).1),
          true,
          (codec.decode format Message.zero (codec.encode format originalMessage).1).2.isNone,
          true,
          decide (originalMessage
            = (codec.decode format Message.zero (codec.encode format originalMessage).1).1),
          true,
          true] := by
  subst hfmt
  obtain ⟨e1, l1, h1, c1, f1⟩ := decoder_Decode_full codec dp Message.zero
    (codec.encode dp.format originalMessage).1 hlen hh
  obtain ⟨e2, l2, h2, c2, f2⟩ := decoder_DecodeBytes_full codec
    (dp.Decode codec Message.zero (codec.encode dp.format originalMessage).1).2
    (codec.decode dp.format Message.zero (codec.encode dp.format originalMessage).1).1
    (codec.encode dp.format originalMessage).1 (l1.trans c1.symm) h1
  rw [f1] at e2 f2
  rw [c1] at l2 c2
  obtain ⟨e3, l3, h3, c3, f3⟩ := decoder_DecodeMessage_full codec _
    (codec.encode dp.format originalMessage).1 (l2.trans c2.symm) h2
  rw [f2] at e3 f3
  rw [c2] at l3 c3
  obtain ⟨e4, l4, h4, c4, f4⟩ := decoder_DecodeMessageBytes_full codec _
    (codec.encode dp.format originalMessage).1 (l3.trans c3.symm) h3
  rw [f3] at e4 f4
  rw [c3] at l4 c4
  obtain ⟨dp3, g1, g2, g3, _⟩ := decoder_drain_enough fuel _ (l4.trans_le hfuel)
  rw [c4] at g3
  have hg : dp3.Get.2.pool = [] ∧ dp3.Get.2.capacity = dp.capacity := by
    refine ⟨?_, ?_⟩
    · simp [DecoderPool.Get, g2, DecoderPool.factory]
    · rw [decoder_Get_capacity, g3]
  obtain ⟨dp4, d1, d2, d3⟩ := decoder_refill_enough dp.pool.length fuel dp3.Get.2
    (by rw [hg.1]; simp) (by rw [hg.2, hlen]) (by rw [hg.1, hlen]; simpa using hfuel)
  have hfin : (dp4.factory.2.Put dp4.factory.1).pool.length = dp.pool.length := by
    have : ¬ dp4.pool.length < dp4.capacity := by
      rw [d2, d3, hg.2, hlen]
      exact Nat.lt_irrefl _
    have hput : dp4.factory.2.Put dp4.factory.1 = dp4.factory.2 := by
      simp only [DecoderPool.Put, DecoderPool.factory]
      rw [if_neg this]
    rw [hput]
    exact d2
  rw [hlen] at d1 hfin
  simp only [testDecoderPool, henc, e1, e2, e3, e4, l1, l2, l3, l4, g1, hlen, d1, hfin]
  simp

/-! ### Construction, and the two encode operations -/

/-- The constructors and the pool test: for every pool size the constructed pools are full
(the idle count equals the capacity, which is the pool size), and on the constructed
encoder pool every assertion of `testEncoderPool` about the pool holds except
`initialSize > 0`, which holds exactly when the pool size is positive; for pool size 0,
which the tests construct, the pools start empty, so that assertion fails. -/
theorem modelled_pool_full_and_test_outcome (codec : Codec)
    (poolSize initialBufferSize : Nat) (f : Format) :
    ((NewEncoderPool poolSize initialBufferSize f).pool.length = poolSize
      ∧ (NewEncoderPool poolSize initialBufferSize f).capacity = poolSize)
    ∧ ((NewDecoderPool poolSize f).pool.length = poolSize
      ∧ (NewDecoderPool poolSize f).capacity = poolSize)
    ∧ testEncoderPool codec poolSize (NewEncoderPool poolSize initialBufferSize f)
      = some [decide (poolSize > 0),
          (codec.encode f testMessage).2.isNone,
          true,
          decide ((codec.encode f testMessage).1.length > 0),
          true,
          decide ((codec.encode f testMessage).1 ≠ []),
          (codec.encode f testMessage).2.isNone,
          true,
          true,
          true]
    ∧ ((NewEncoderPool 0 initialBufferSize f).pool.length = 0
      ∧ (NewDecoderPool 0 f).pool.length = 0
      ∧ (testEncoderPool codec 0 (NewEncoderPool 0 initialBufferSize f)).map List.head?
          = some (some false)) := by
  obtain ⟨e1, e2, e3, e4⟩ := NewEncoderPool_full poolSize initialBufferSize f
  obtain ⟨d1, _, d3, _⟩ := NewDecoderPool_full poolSize f
  obtain ⟨z1, z2, z3, z4⟩ := NewEncoderPool_full 0 initialBufferSize f
  have ht := testEncoderPool_on_full codec poolSize
    (NewEncoderPool poolSize initialBufferSize f) (e1.trans e3.symm) e2 (le_of_eq e3)
  rw [e3, e4] at ht
  have hz := testEncoderPool_on_full codec 0
    (NewEncoderPool 0 initialBufferSize f) (z1.trans z3.symm) z2 (le_of_eq z3)
  rw [z3] at hz
  refine ⟨⟨e1, e3⟩, ⟨d1, d3⟩, ht, z1, (NewDecoderPool_full 0 f).1, ?_⟩
  rw [hz]
  rfl

/-- The rows of `TestEncoderPool` and `TestDecoderPool` with pool size 0, on the modelled
constructors and a codec that succeeds: the assertion `initialSize > 0` is the one that
fails; the row with pool size 10 passes. -/
theorem modelled_pool_test_rows :
    testEncoderPool exampleCodec 0 (NewEncoderPool 0 0 Format.Msgpack)
      = some [false, true, true, true, true, true, true, true, true, true]
    ∧ testEncoderPool exampleCodec 0 (NewEncoderPool 0 0 Format.JSON)
      = some [false, true, true, true, true, true, true, true, true, true]
    ∧ (testDecoderPool exampleCodec 0 Format.Msgpack (NewDecoderPool 0 Format.Msgpack)).map
        (fun r => r.take 2) = some [true, false]
    ∧ (testDecoderPool exampleCodec 0 Format.JSON (NewDecoderPool 0 Format.JSON)).map
        (fun r => r.take 2) = some [true, false]
    ∧ testEncoderPool exampleCodec 10 (NewEncoderPool 10 10 Format.Msgpack)
      = some [true, true, true, true, true, true, true, true, true, true] :=
  ⟨(modelled_pool_full_and_test_outcome exampleCodec 0 0 Format.Msgpack).2.2.1.trans
      (by decide),
    by decide, by decide, by decide, by decide⟩

/-- Acquiring and releasing keeps the idle instances of the pool on the pool's format. -/
theorem encoder_bracket_homogeneous (ep : EncoderPool) (hh : ep.Homogeneous) :
    (ep.Get.2.Put ep.Get.1).Homogeneous := by
  obtain ⟨cap, pool, fmt, b, a⟩ := ep
  intro x hx
  rw [encoder_Put_format, encoder_Get_format]
  cases pool with
  | nil =>
    by_cases hc : 0 < cap
    · simp [EncoderPool.Get, EncoderPool.Put, EncoderPool.factory, hc] at hx
      rw [hx]
    · simp [EncoderPool.Get, EncoderPool.Put, EncoderPool.factory, hc] at hx
  | cons e rest =>
    by_cases hc : rest.length < cap
    · simp only [EncoderPool.Get, EncoderPool.Put, hc, if_true, List.mem_append,
        List.mem_singleton] at hx
      rcases hx with hx | hx
      · exact hh x (List.mem_cons_of_mem _ hx)
      · rw [hx]
        exact hh e (List.mem_cons_self _ _)
    · simp only [EncoderPool.Get, EncoderPool.Put, hc, if_false] at hx
      exact hh x (List.mem_cons_of_mem _ hx)

/-- C16: for every message and every encoder pool state, EncodeBytes returns exactly the
bytes that Encode appends to the caller's buffer, hence the bytes Encode writes into an
initially empty buffer, with the same error, and leaves the pool in the same state.  When
the two are called one after the other, as the test does, on a pool whose idle encoders are
all bound to the pool's format, the bytes and the error are again the same. -/
theorem C16_EncodeBytes_matches_Encode (codec : Codec) (ep : EncoderPool)
    (dst : List UInt8) (m : Message) :
    (ep.Encode codec dst m).1.2 = dst ++ (ep.EncodeBytes codec m).1.1
    ∧ (ep.EncodeBytes codec m).1.1 = (ep.Encode codec [] m).1.2
    ∧ (ep.EncodeBytes codec m).1.2 = (ep.Encode codec [] m).1.1
    ∧ (ep.EncodeBytes codec m).2 = (ep.Encode codec [] m).2
    ∧ (ep.Homogeneous →
        ((ep.Encode codec [] m).2.EncodeBytes codec m).1.1 = (ep.Encode codec [] m).1.2
        ∧ ((ep.Encode codec [] m).2.EncodeBytes codec m).1.2 = (ep.Encode codec [] m).1.1) := by
  refine ⟨rfl, by simp [EncoderPool.Encode, EncoderPool.EncodeBytes], rfl, rfl, ?_⟩
  intro hh
  have h1 : ep.Get.1.format = ep.format := encoder_Get_handle_format ep hh
  have h2 : (ep.Get.2.Put ep.Get.1).Get.1.format = ep.format := by
    rw [encoder_Get_handle_format _ (encoder_bracket_homogeneous ep hh),
      encoder_Put_format, encoder_Get_format]
  simp [EncoderPool.Encode, EncoderPool.EncodeBytes, h1, h2]

/-- C16, at a constructed pool of capacity 2 and the test message: the bytes of EncodeBytes
called after Encode are the bytes Encode wrote into the empty buffer. -/
theorem C16_EncodeBytes_matches_Encode_witness :
    (((NewEncoderPool 2 10 Format.JSON).Encode exampleCodec [] testMessage).2.EncodeBytes
        exampleCodec testMessage).1.1
      = ((NewEncoderPool 2 10 Format.JSON).Encode exampleCodec [] testMessage).1.2
    ∧ (((NewEncoderPool 2 10 Format.JSON).Encode exampleCodec [] testMessage).2.EncodeBytes
        exampleCodec testMessage).1.2
      = ((NewEncoderPool 2 10 Format.JSON).Encode exampleCodec [] testMessage).1.1 :=
  (C16_EncodeBytes_matches_Encode exampleCodec (NewEncoderPool 2 10 Format.JSON) []
    testMessage).2.2.2.2 (NewEncoderPool_full 2 10 Format.JSON).2.1

end wrp
